import Mathlib

/-!
Shallow embedding of the tiered small-object memory allocator
(source files: the MemoryManager header and its implementation):
the classes BaseMemoryPool, GlobalMemoryPool, ThreadLocalMemoryPool and the
MemoryManager facade, together with the invariants stated in the
specification.

Modelling conventions.

* All size_t values are Nat.  Every subtraction performed by the source is
  shown (under the invariants the theorems assume) not to underflow, so Nat
  truncated subtraction agrees with the machine arithmetic on every state a
  theorem speaks about.
* The source keeps three parallel vectors, block_sizes_, free_lists_ and
  free_block_counts_, which are always indexed, inserted into and updated in
  lockstep at the same position.  They are modelled as a single list of
  SizeClass records; projections named after the source vectors recover each
  of them.
* A free block carries an in-band header holding its total size and the next
  pointer of the singly linked freelist.  The next pointers are modelled by
  the List structure; a block itself is modelled by its header size field
  plus its address, which is its identity.  The header of an allocated block
  is preserved while the block is in the user's hands (the user area starts
  FREE_BLOCK_HEADER_SIZE bytes after the block start), so the header read
  back by deallocate is exactly the header of the block that allocate popped.
* malloc(PAGE_SIZE) is modelled as an always succeeding backing allocator
  handing out fresh pages at deterministic, page-aligned, nonzero addresses
  (the next_page_ cursor).  Real malloc may return null, which makes
  allocateBatch fail; the claims under verification only concern the
  successful paths, and the failure branches of the source are kept in the
  definitions.
* free(ptr) returns memory to the system; in the model the released blocks
  simply leave the pool.  Whether a deallocation went to a freelist or to
  the system allocator is recorded by a DeallocAction tag.
* sizeof(FreeBlock) = sizeof(size_t) + sizeof(FreeBlock*) = 16 on the LP64
  build this development follows.
-/

set_option linter.unusedVariables false

/-- Smallest user size a request is normalized to. -/
def MIN_USER_SIZE : Nat := 8

/-- Largest user size served from the pool; larger requests return null. -/
def MAX_USER_SIZE : Nat := 2048

/-- Alignment step for block total sizes (a power of two in the source). -/
def BLOCK_ALIGNMENT : Nat := 8

/-- Size of the buffer obtained from the backing allocator per batch. -/
def PAGE_SIZE : Nat := 4096

/-- High-water mark for the global pool's free memory (10 MiB). -/
def MAX_GLOBAL_FREE_MEMORY : Nat := 10 * 1024 * 1024

/-- Blocks kept per class by reclaimIdleMemory. -/
def RESERVE_BLOCK_COUNT : Nat := 4

/-- sizeof(FreeBlock): a size_t plus a pointer on the LP64 build. -/
def FREE_BLOCK_HEADER_SIZE : Nat := 16

/-- alignUp(value, alignment) = (value + alignment - 1) and-not (alignment - 1).
For a power-of-two alignment (asserted by the source) the mask form equals
x - x % alignment applied to x = value + alignment - 1, which is how the
function is rendered on Nat. -/
def alignUp (value alignment : Nat) : Nat :=
  (value + alignment - 1) - (value + alignment - 1) % alignment

/-- A free block, identified by its address, carrying the total size stored
in its in-band header.  The header's next pointer is modelled by the list
structure of the freelists. -/
structure FreeBlock where
  size : Nat
  addr : Nat
deriving DecidableEq, Repr

/-- One size class: an entry of block_sizes_ together with the entries of
free_lists_ and free_block_counts_ at the same index. -/
structure SizeClass where
  total_size : Nat
  free_list : List FreeBlock
  free_count : Nat
deriving DecidableEq, Repr

/-- Memory statistics, as returned by getStats. -/
structure MemoryStats where
  allocate_count : Nat
  deallocate_count : Nat
  total_free_memory : Nat
  total_used_memory : Nat
  total_allocated_memory : Nat
deriving DecidableEq, Repr

/-- State of a BaseMemoryPool: the size-class table (the three parallel
vectors merged, see the header comment) plus the cumulative counters and the
model's fresh-page cursor standing for the backing allocator. -/
structure BaseMemoryPool where
  classes : List SizeClass
  allocate_count_ : Nat
  deallocate_count_ : Nat
  total_free_memory_ : Nat
  total_allocated_memory_ : Nat
  next_page_ : Nat
deriving DecidableEq, Repr

/-- Replace the element at index i by f applied to it (List.set with a
function; out-of-range indices leave the list unchanged, matching in-range
vector indexing in the source). -/
def updateAt {α : Type} : List α → Nat → (α → α) → List α
  | [], _, _ => []
  | a :: l, 0, f => f a :: l
  | a :: l, n + 1, f => a :: updateAt l n f

/-- Insert x before position n (vector insert at an iterator position
at most the size, which is the only way the source uses it). -/
def insertAt {α : Type} : List α → Nat → α → List α
  | l, 0, x => x :: l
  | [], _ + 1, x => [x]
  | a :: l, n + 1, x => a :: insertAt l n x

/-- Dummy class used as the default of getD; never read at an in-range
index. -/
def defaultClass : SizeClass := ⟨0, [], 0⟩

namespace BaseMemoryPool

/-- The vector block_sizes_ of the source. -/
def block_sizes_ (P : BaseMemoryPool) : List Nat :=
  P.classes.map (·.total_size)

/-- The vector free_lists_ of the source. -/
def free_lists_ (P : BaseMemoryPool) : List (List FreeBlock) :=
  P.classes.map (·.free_list)

/-- The vector free_block_counts_ of the source. -/
def free_block_counts_ (P : BaseMemoryPool) : List Nat :=
  P.classes.map (·.free_count)

/-- Size class at index i. -/
def classAt (P : BaseMemoryPool) (i : Nat) : SizeClass :=
  P.classes.getD i defaultClass

/-- calcAlignedTotalSize: a user_size of 0 becomes MIN_USER_SIZE, the header
is added and the sum is aligned up. -/
def calcAlignedTotalSize (user_size : Nat) : Nat :=
  let u := if user_size = 0 then MIN_USER_SIZE else user_size
  alignUp (u + FREE_BLOCK_HEADER_SIZE) BLOCK_ALIGNMENT

/-- std::lower_bound followed by the equality test of findBlockSizeIndex,
acting on the sizes vector: the position of the first entry that is not less
than ts, returned when that entry equals ts.  On the sorted vector the
source maintains, the linear rendering coincides with binary search. -/
def findSizeIdx : List Nat → Nat → Option Nat
  | [], _ => none
  | s :: rest, ts =>
    if ts ≤ s then (if s = ts then some 0 else none)
    else (findSizeIdx rest ts).map (· + 1)

/-- Position returned by std::lower_bound on the sizes vector. -/
def lowerBoundPos : List Nat → Nat → Nat
  | [], _ => 0
  | s :: rest, ts => if ts ≤ s then 0 else lowerBoundPos rest ts + 1

/-- findBlockSizeIndex: index of ts in block_sizes_, none standing for the
source's -1. -/
def findBlockSizeIndex (P : BaseMemoryPool) (ts : Nat) : Option Nat :=
  findSizeIdx P.block_sizes_ ts

/-- addBlockSizeIfNotExist: return the existing index, or insert the new
size at its lower-bound position, inserting a null freelist head and a zero
count at the same position of the parallel vectors. -/
def addBlockSizeIfNotExist (P : BaseMemoryPool) (ts : Nat) : Nat × BaseMemoryPool :=
  match P.findBlockSizeIndex ts with
  | some i => (i, P)
  | none =>
    let p := lowerBoundPos P.block_sizes_ ts
    (p, { P with classes := insertAt P.classes p ⟨ts, [], 0⟩ })

/-- allocateBatch: slice one fresh PAGE_SIZE buffer into PAGE_SIZE / ts
blocks threaded into a forward linked list whose head becomes
free_lists_[index] (the previous head is overwritten; the source only calls
this with an empty freelist), and update the counters.  none is the
source's false. -/
def allocateBatch (P : BaseMemoryPool) (total_size : Nat) (index : Nat) :
    Option BaseMemoryPool :=
  if P.classes.length ≤ index then none
  else if total_size = 0 ∨ PAGE_SIZE < total_size then none
  else
    let block_count := PAGE_SIZE / total_size
    if block_count = 0 then none
    else
      let page := P.next_page_
      some { P with
        classes := updateAt P.classes index (fun c =>
          { c with
            free_list := (List.range block_count).map
              (fun i => ⟨total_size, page + i * total_size⟩),
            free_count := c.free_count + block_count }),
        total_free_memory_ := P.total_free_memory_ + total_size * block_count,
        total_allocated_memory_ := P.total_allocated_memory_ + PAGE_SIZE,
        next_page_ := P.next_page_ + PAGE_SIZE }

/-- The class lookup phase of allocate: find the class or dynamically add
it.  (After addBlockSizeIfNotExist the source checks for -1 again, a dead
branch since insertion always yields an index.) -/
def locateIndex (P : BaseMemoryPool) (ts : Nat) : Nat × BaseMemoryPool :=
  match P.findBlockSizeIndex ts with
  | some i => (i, P)
  | none => P.addBlockSizeIfNotExist ts

/-- The restocking phase of allocate: when the freelist is empty, batch
allocate; a failure of the batch makes allocate return null. -/
def stockClass (P : BaseMemoryPool) (ts : Nat) (index : Nat) :
    Option BaseMemoryPool :=
  if (P.classAt index).free_list.isEmpty then P.allocateBatch ts index
  else some P

/-- The pop phase of allocate: take the head block, update the counters and
return the user pointer block + FREE_BLOCK_HEADER_SIZE.  The [] branch is
unreachable (the source dereferences the head unconditionally right after
the restocking guard, which guarantees a nonempty list). -/
def popHead (P : BaseMemoryPool) (index : Nat) : Option Nat × BaseMemoryPool :=
  match (P.classAt index).free_list with
  | [] => (none, P)
  | b :: rest =>
    (some (b.addr + FREE_BLOCK_HEADER_SIZE),
     { P with
       classes := updateAt P.classes index (fun c =>
         { c with free_list := rest, free_count := c.free_count - 1 }),
       total_free_memory_ := P.total_free_memory_ - b.size,
       allocate_count_ := P.allocate_count_ + 1 })

/-- BaseMemoryPool::allocate. -/
def allocate (P : BaseMemoryPool) (user_size : Nat) :
    Option Nat × BaseMemoryPool :=
  if MAX_USER_SIZE < user_size then (none, P)
  else
    let ts := calcAlignedTotalSize user_size
    let ip := P.locateIndex ts
    match stockClass ip.2 ts ip.1 with
    | none => (none, ip.2)
    | some P2 => popHead P2 ip.1

/-- How a deallocation was handled: null no-op, direct release to the
system allocator, or push onto a pool freelist. -/
inductive DeallocAction where
  | nullNoop
  | systemFree
  | pooled
deriving DecidableEq, Repr

/-- BaseMemoryPool::deallocate.  The argument models the user pointer: none
is null, and some b is the block at user_ptr - FREE_BLOCK_HEADER_SIZE whose
header holds b.size (headers of allocated blocks are preserved, see the
module comment). -/
def deallocate (P : BaseMemoryPool) (ptr : Option FreeBlock) :
    DeallocAction × BaseMemoryPool :=
  match ptr with
  | none => (.nullNoop, P)
  | some b =>
    let total_size := b.size
    if total_size = 0 ∨ total_size < calcAlignedTotalSize MIN_USER_SIZE then
      (.systemFree, P)
    else
      match P.findBlockSizeIndex total_size with
      | none => (.systemFree, P)
      | some index =>
        (.pooled,
         { P with
           classes := updateAt P.classes index (fun c =>
             { c with free_list := b :: c.free_list,
                      free_count := c.free_count + 1 }),
           total_free_memory_ := P.total_free_memory_ + total_size,
           deallocate_count_ := P.deallocate_count_ + 1 })

/-- One iteration of the reclaimIdleMemory loop, acting on the single class
it touches.  Returns the bytes handed to free together with the updated
class.  The pointer walk advances release_head (with prev one node behind)
min (remaining - 1) (length - 1) steps from the head, stopping early when
next is null; cutting after prev leaves the first s nodes on the list, and
the chain from release_head onward goes to free.  The [] branch mirrors the
continue on a null release_head; on an empty list with a release the source
would dereference a null head first, a state the invariants exclude. -/
def reclaimClass (c : SizeClass) : Nat × SizeClass :=
  if c.free_count ≤ RESERVE_BLOCK_COUNT then (0, c)
  else
    let blocks_per_page := PAGE_SIZE / c.total_size
    if blocks_per_page = 0 then (0, c)
    else
      let release_count :=
        ((c.free_count - RESERVE_BLOCK_COUNT) / blocks_per_page) * blocks_per_page
      if release_count = 0 then (0, c)
      else if c.free_list.isEmpty then (0, c)
      else
        let remaining := c.free_count - release_count
        let s := min (remaining - 1) (c.free_list.length - 1)
        (c.total_size * release_count,
         { c with free_list := c.free_list.take s,
                  free_count := c.free_count - release_count })

/-- The loop of reclaimIdleMemory over all classes, threading
total_free_memory_ and the running reclaimed_size. -/
def reclaimGo : List SizeClass → Nat → Nat → List SizeClass × Nat × Nat
  | [], tf, acc => ([], tf, acc)
  | c :: cs, tf, acc =>
    let rc := reclaimClass c
    let rest := reclaimGo cs (tf - rc.1) (acc + rc.1)
    (rc.2 :: rest.1, rest.2)

/-- BaseMemoryPool::reclaimIdleMemory: returns the reclaimed byte count and
the updated pool. -/
def reclaimIdleMemory (P : BaseMemoryPool) : Nat × BaseMemoryPool :=
  let r := reclaimGo P.classes P.total_free_memory_ 0
  (r.2.2, { P with classes := r.1, total_free_memory_ := r.2.1 })

/-- One iteration of the transferTo loop: splice the (nonempty) freelist of
source class i onto the head of the matching destination class (adding the
class to the destination when absent: the find-then-insert sequence is the
same code shape as in allocate and is shared as locateIndex; the source's
second -1 check after the insertion is dead code), move the counter and the
free-memory amount, and clear the source class. -/
def transferClass (s d : BaseMemoryPool) (i : Nat) :
    BaseMemoryPool × BaseMemoryPool :=
  let L := (s.classAt i).free_list
  if L.isEmpty then (s, d)
  else
    let total_size := (s.classAt i).total_size
    let block_count := (s.classAt i).free_count
    let jd := d.locateIndex total_size
    let d2 := { jd.2 with
      classes := updateAt jd.2.classes jd.1 (fun c =>
        { c with free_list := L ++ c.free_list,
                 free_count := c.free_count + block_count }),
      total_free_memory_ := jd.2.total_free_memory_ + total_size * block_count }
    let s2 := { s with
      classes := updateAt s.classes i (fun c =>
        { c with free_list := [], free_count := 0 }),
      total_free_memory_ := s.total_free_memory_ - total_size * block_count }
    (s2, d2)

/-- The transferTo loop over the source class indices. -/
def transferGo : BaseMemoryPool → BaseMemoryPool → List Nat →
    BaseMemoryPool × BaseMemoryPool
  | s, d, [] => (s, d)
  | s, d, i :: is =>
    let sd := transferClass s d i
    transferGo sd.1 sd.2 is

/-- BaseMemoryPool::transferTo: drain every nonempty source freelist into
dest.  Returns (source, destination) afterwards. -/
def transferTo (s d : BaseMemoryPool) : BaseMemoryPool × BaseMemoryPool :=
  transferGo s d (List.range s.classes.length)

/-- BaseMemoryPool::getStats. -/
def getStats (P : BaseMemoryPool) : MemoryStats :=
  { allocate_count := P.allocate_count_,
    deallocate_count := P.deallocate_count_,
    total_free_memory := P.total_free_memory_,
    total_used_memory := P.total_allocated_memory_ - P.total_free_memory_,
    total_allocated_memory := P.total_allocated_memory_ }

/-- A default-constructed pool before the constructor body runs: empty
vectors, zero counters.  The model's first fresh page sits at PAGE_SIZE, a
nonzero page-aligned address. -/
def init : BaseMemoryPool :=
  { classes := [], allocate_count_ := 0, deallocate_count_ := 0,
    total_free_memory_ := 0, total_allocated_memory_ := 0,
    next_page_ := PAGE_SIZE }

/-- The user sizes the constructor seeds: MIN_USER_SIZE up to MAX_USER_SIZE
stepping by BLOCK_ALIGNMENT. -/
def seedUserSizes : List Nat :=
  (List.range 256).map (fun j => MIN_USER_SIZE + BLOCK_ALIGNMENT * j)

/-- The BaseMemoryPool constructor: seed a class for every aligned total of
the user-size ladder. -/
def mk' : BaseMemoryPool :=
  seedUserSizes.foldl
    (fun P u => (P.addBlockSizeIfNotExist (calcAlignedTotalSize u)).2) init

end BaseMemoryPool

/-- A freshly constructed BaseMemoryPool. -/
def freshPool : BaseMemoryPool := BaseMemoryPool.mk'

/-- An arithmetic ladder of n sizes starting at s stepping by 8. -/
def ladderFrom : Nat → Nat → List Nat
  | _, 0 => []
  | s, n + 1 => s :: ladderFrom (s + 8) n

/-- The block total sizes seeded by the constructor: 24, 32, ..., 2064. -/
def seededSizes : List Nat := ladderFrom 24 256

/-- State of the GlobalMemoryPool singleton (the mutex serializes every
method; the model states are those observed with the mutex held). -/
structure GlobalMemoryPool where
  pool_ : BaseMemoryPool
deriving DecidableEq, Repr

namespace GlobalMemoryPool

/-- GlobalMemoryPool::allocate. -/
def allocate (g : GlobalMemoryPool) (user_size : Nat) :
    Option Nat × GlobalMemoryPool :=
  let r := g.pool_.allocate user_size
  (r.1, ⟨r.2⟩)

/-- GlobalMemoryPool::deallocate: inner deallocate, then reclaim when free
memory exceeds the high-water mark. -/
def deallocate (g : GlobalMemoryPool) (ptr : Option FreeBlock) :
    GlobalMemoryPool :=
  let P1 := (g.pool_.deallocate ptr).2
  if MAX_GLOBAL_FREE_MEMORY < P1.getStats.total_free_memory then
    ⟨(P1.reclaimIdleMemory).2⟩
  else ⟨P1⟩

/-- GlobalMemoryPool::transferFrom: splice the source pool in, then reclaim
when free memory exceeds the high-water mark.  Returns the drained source
and the new global state. -/
def transferFrom (g : GlobalMemoryPool) (src : BaseMemoryPool) :
    BaseMemoryPool × GlobalMemoryPool :=
  let r := src.transferTo g.pool_
  if MAX_GLOBAL_FREE_MEMORY < r.2.getStats.total_free_memory then
    (r.1, ⟨(r.2.reclaimIdleMemory).2⟩)
  else (r.1, ⟨r.2⟩)

/-- GlobalMemoryPool::getGlobalStats. -/
def getGlobalStats (g : GlobalMemoryPool) : MemoryStats :=
  g.pool_.getStats

end GlobalMemoryPool

/-- State of a ThreadLocalMemoryPool (one per thread, lock free). -/
structure ThreadLocalMemoryPool where
  pool_ : BaseMemoryPool
deriving DecidableEq, Repr

namespace ThreadLocalMemoryPool

/-- ThreadLocalMemoryPool::allocate delegates to the inner pool. -/
def allocate (t : ThreadLocalMemoryPool) (user_size : Nat) :
    Option Nat × ThreadLocalMemoryPool :=
  let r := t.pool_.allocate user_size
  (r.1, ⟨r.2⟩)

/-- ThreadLocalMemoryPool::deallocate delegates to the inner pool. -/
def deallocate (t : ThreadLocalMemoryPool) (ptr : Option FreeBlock) :
    BaseMemoryPool.DeallocAction × ThreadLocalMemoryPool :=
  let r := t.pool_.deallocate ptr
  (r.1, ⟨r.2⟩)

/-- ThreadLocalMemoryPool::getLocalStats. -/
def getLocalStats (t : ThreadLocalMemoryPool) : MemoryStats :=
  t.pool_.getStats

/-- The ThreadLocalMemoryPool destructor donates the local pool to the
global singleton. -/
def destruct (t : ThreadLocalMemoryPool) (g : GlobalMemoryPool) :
    BaseMemoryPool × GlobalMemoryPool :=
  g.transferFrom t.pool_

end ThreadLocalMemoryPool

/-- The process state the MemoryManager facade acts on: the calling
thread's local pool and the global singleton. -/
structure MemoryManagerState where
  local_pool_ : ThreadLocalMemoryPool
  global_pool_ : GlobalMemoryPool
deriving DecidableEq, Repr

namespace MemoryManager

/-- MemoryManager::deallocate: a null pointer is a no-op; otherwise the
pointer is handed to the calling thread's local pool.  No other component
is touched: in particular GlobalMemoryPool::deallocate is not on this
path. -/
def deallocate (st : MemoryManagerState) (ptr : Option FreeBlock) :
    MemoryManagerState :=
  match ptr with
  | none => st
  | some _ => { st with local_pool_ := (st.local_pool_.deallocate ptr).2 }

/-- MemoryManager::getLocalStats. -/
def getLocalStats (st : MemoryManagerState) : MemoryStats :=
  st.local_pool_.getLocalStats

/-- MemoryManager::getGlobalStats. -/
def getGlobalStats (st : MemoryManagerState) : MemoryStats :=
  st.global_pool_.getGlobalStats

end MemoryManager

/-- The pool operations a BaseMemoryPool undergoes in the program.  alloc
runs allocate (which performs allocateBatch exactly as the source invokes
it: on an empty freelist, with the located class's total size); dealloc
runs deallocate on a user pointer whose header holds the given block;
reclaim runs reclaimIdleMemory; transferOut drains this pool into another
pool; transferIn drains into this pool a pool that itself was produced by a
program of operations from a fresh pool. -/
inductive PoolOp where
  | alloc (user_size : Nat)
  | dealloc (ptr : Option FreeBlock)
  | reclaim
  | transferOut
  | transferIn (srcProg : List PoolOp)

mutual

/-- Run one operation on the pool. -/
def stepOp (P : BaseMemoryPool) : PoolOp → BaseMemoryPool
  | .alloc u => (P.allocate u).2
  | .dealloc ptr => (P.deallocate ptr).2
  | .reclaim => (P.reclaimIdleMemory).2
  | .transferOut => (P.transferTo freshPool).1
  | .transferIn sp => ((runOps freshPool sp).transferTo P).2

/-- Run a program of operations on the pool. -/
def runOps (P : BaseMemoryPool) : List PoolOp → BaseMemoryPool
  | [] => P
  | op :: ops => runOps (stepOp P op) ops

end

/-- Every block on a freelist carries the total size of its class. -/
def AllSizes (P : BaseMemoryPool) : Prop :=
  ∀ c ∈ P.classes, ∀ b ∈ c.free_list, b.size = c.total_size

/-- The accounting identity of the spec: the sum over all classes of
total size times free count equals total_free_memory_. -/
def poolSum (cs : List SizeClass) : Nat :=
  (cs.map (fun c => c.total_size * c.free_count)).sum

/-- SumInv P: sum of block_sizes_[k] * free_block_counts_[k] equals
total_free_memory_. -/
def SumInv (P : BaseMemoryPool) : Prop :=
  poolSum P.classes = P.total_free_memory_

/-- Every freelist is at most as long as its recorded count. -/
def LenLe (P : BaseMemoryPool) : Prop :=
  ∀ c ∈ P.classes, c.free_list.length ≤ c.free_count

/-- Every recorded count exceeds its freelist length by at most one. -/
def DeltaLe1 (P : BaseMemoryPool) : Prop :=
  ∀ c ∈ P.classes, c.free_count ≤ c.free_list.length + 1

/-- Every recorded count equals its freelist length (the spec's freelist
length invariant). -/
def LenEq (P : BaseMemoryPool) : Prop :=
  ∀ c ∈ P.classes, c.free_count = c.free_list.length

/-- The size-class table is exactly the constructor-seeded ladder. -/
def Ladder (P : BaseMemoryPool) : Prop :=
  P.block_sizes_ = seededSizes

/-- The inductive invariant used for the accounting theorems. -/
def PoolInv (P : BaseMemoryPool) : Prop :=
  AllSizes P ∧ SumInv P ∧ LenLe P

/-- Total bytes one reclaimIdleMemory pass hands to free. -/
def totalReleased (cs : List SizeClass) : Nat :=
  (cs.map (fun c => (BaseMemoryPool.reclaimClass c).1)).sum

/-- The constructor-seeded class table: one empty class per ladder size. -/
def seededClasses : List SizeClass :=
  seededSizes.map (fun ts => ⟨ts, [], 0⟩)

/-- The fresh pool written out directly: the seeded class table with all
counters at zero (proved equal to freshPool below; kernel evaluation of
this literal form avoids replaying the constructor's insertion fold). -/
def seededPool : BaseMemoryPool :=
  { classes := seededClasses, allocate_count_ := 0, deallocate_count_ := 0,
    total_free_memory_ := 0, total_allocated_memory_ := 0,
    next_page_ := PAGE_SIZE }

/-- Upper bound on the free memory a pool can retain right after a
reclaimIdleMemory pass: every class keeps fewer than
RESERVE_BLOCK_COUNT + PAGE_SIZE / total_size blocks. -/
def reclaimKeepBound : Nat :=
  (seededSizes.map (fun ts => ts * (3 + PAGE_SIZE / ts))).sum


/-! ### List toolkit lemmas -/

theorem length_updateAt {α : Type} (l : List α) (i : Nat) (f : α → α) :
    (updateAt l i f).length = l.length := by
  induction l generalizing i with
  | nil => rfl
  | cons a l ih =>
    cases i with
    | zero => rfl
    | succ n => simp [updateAt, ih]

theorem updateAt_out {α : Type} (l : List α) (i : Nat) (f : α → α)
    (h : l.length ≤ i) : updateAt l i f = l := by
  induction l generalizing i with
  | nil => rfl
  | cons a l ih =>
    cases i with
    | zero => simp at h
    | succ n =>
      simp only [List.length_cons, Nat.succ_le_succ_iff] at h
      simp [updateAt, ih n h]

theorem getD_updateAt_self {α : Type} (l : List α) (i : Nat) (f : α → α)
    (d : α) (h : i < l.length) :
    (updateAt l i f).getD i d = f (l.getD i d) := by
  induction l generalizing i with
  | nil => simp at h
  | cons a l ih =>
    cases i with
    | zero => rfl
    | succ n =>
      simp only [List.length_cons, Nat.succ_lt_succ_iff] at h
      simpa [updateAt] using ih n h

theorem getD_updateAt_ne {α : Type} (l : List α) (i j : Nat) (f : α → α)
    (d : α) (h : j ≠ i) :
    (updateAt l i f).getD j d = l.getD j d := by
  induction l generalizing i j with
  | nil => rfl
  | cons a l ih =>
    cases i with
    | zero =>
      cases j with
      | zero => exact absurd rfl h
      | succ m => rfl
    | succ n =>
      cases j with
      | zero => rfl
      | succ m =>
        simpa [updateAt] using ih n m (fun hc => h (by omega))

theorem mem_updateAt {α : Type} (l : List α) (i : Nat) (f : α → α) (d : α)
    (a : α) (ha : a ∈ updateAt l i f) :
    a ∈ l ∨ (i < l.length ∧ a = f (l.getD i d)) := by
  induction l generalizing i with
  | nil => simp [updateAt] at ha
  | cons x l ih =>
    cases i with
    | zero =>
      rcases List.mem_cons.mp ha with h | h
      · exact Or.inr ⟨by simp, h⟩
      · exact Or.inl (List.mem_cons_of_mem _ h)
    | succ n =>
      rcases List.mem_cons.mp ha with h | h
      · exact Or.inl (by simp [h])
      · rcases ih n h with h' | ⟨hn, he⟩
        · exact Or.inl (List.mem_cons_of_mem _ h')
        · exact Or.inr ⟨by simpa using Nat.succ_lt_succ hn, by simpa using he⟩

theorem map_updateAt_of_fix {α β : Type} (l : List α) (i : Nat) (f : α → α)
    (g : α → β) (hfix : ∀ x, g (f x) = g x) :
    (updateAt l i f).map g = l.map g := by
  induction l generalizing i with
  | nil => rfl
  | cons a l ih =>
    cases i with
    | zero => simp [updateAt, hfix]
    | succ n => simp [updateAt, ih]

theorem sum_map_updateAt {α : Type} (l : List α) (i : Nat) (f : α → α)
    (g : α → Nat) (d : α) (h : i < l.length) :
    ((updateAt l i f).map g).sum + g (l.getD i d) =
      (l.map g).sum + g (f (l.getD i d)) := by
  induction l generalizing i with
  | nil => simp at h
  | cons a l ih =>
    cases i with
    | zero => simp [updateAt]; omega
    | succ n =>
      simp only [List.length_cons, Nat.succ_lt_succ_iff] at h
      have := ih n h
      simp only [updateAt, List.map_cons, List.sum_cons, List.getD_cons_succ]
      omega

theorem length_insertAt {α : Type} (l : List α) (p : Nat) (x : α)
    (h : p ≤ l.length) : (insertAt l p x).length = l.length + 1 := by
  induction l generalizing p with
  | nil => cases p <;> rfl
  | cons a l ih =>
    cases p with
    | zero => rfl
    | succ n =>
      simp only [List.length_cons, Nat.succ_le_succ_iff] at h
      simp [insertAt, ih n h]

theorem mem_insertAt {α : Type} (l : List α) (p : Nat) (x : α) (a : α)
    (ha : a ∈ insertAt l p x) : a = x ∨ a ∈ l := by
  induction l generalizing p with
  | nil =>
    cases p with
    | zero => simpa [insertAt] using ha
    | succ n => simpa [insertAt] using ha
  | cons b l ih =>
    cases p with
    | zero =>
      rcases List.mem_cons.mp ha with h | h
      · exact Or.inl h
      · exact Or.inr h
    | succ n =>
      rcases List.mem_cons.mp ha with h | h
      · exact Or.inr (by simp [h])
      · rcases ih n h with h' | h'
        · exact Or.inl h'
        · exact Or.inr (List.mem_cons_of_mem _ h')

theorem sum_map_insertAt {α : Type} (l : List α) (p : Nat) (x : α)
    (g : α → Nat) :
    ((insertAt l p x).map g).sum = g x + (l.map g).sum := by
  induction l generalizing p with
  | nil => cases p <;> simp [insertAt]
  | cons a l ih =>
    cases p with
    | zero => simp [insertAt]
    | succ n => simp [insertAt, ih]; omega

theorem map_insertAt {α β : Type} (l : List α) (p : Nat) (x : α)
    (g : α → β) :
    (insertAt l p x).map g = insertAt (l.map g) p (g x) := by
  induction l generalizing p with
  | nil => cases p <;> rfl
  | cons a l ih =>
    cases p with
    | zero => rfl
    | succ n => simp [insertAt, ih]

theorem getD_insertAt_self {α : Type} (l : List α) (p : Nat) (x : α)
    (d : α) (h : p ≤ l.length) : (insertAt l p x).getD p d = x := by
  induction l generalizing p with
  | nil =>
    cases p with
    | zero => rfl
    | succ n => simp at h
  | cons a l ih =>
    cases p with
    | zero => rfl
    | succ n =>
      simp only [List.length_cons, Nat.succ_le_succ_iff] at h
      simpa [insertAt] using ih n h

theorem getD_eq_of_mem_getD {α : Type} (l : List α) (i : Nat) (d : α)
    (h : i < l.length) : l.getD i d ∈ l := by
  induction l generalizing i with
  | nil => simp at h
  | cons a l ih =>
    cases i with
    | zero => simp
    | succ n =>
      simp only [List.length_cons, Nat.succ_lt_succ_iff] at h
      simpa using Or.inr (ih n h)

theorem forall_mem_of_forall_getD {α : Type} (l : List α) (d : α)
    (p : α → Prop) (h : ∀ i, i < l.length → p (l.getD i d)) :
    ∀ a ∈ l, p a := by
  induction l with
  | nil => intro a ha; simp at ha
  | cons x l ih =>
    intro a ha
    rcases List.mem_cons.mp ha with rfl | ha
    · exact h 0 (by simp)
    · exact ih (fun i hi => by simpa using h (i + 1) (by simpa using hi)) a ha

/-! ### poolSum, findSizeIdx and ladder lemmas -/

open BaseMemoryPool

theorem poolSum_nil : poolSum [] = 0 := rfl

theorem poolSum_cons (c : SizeClass) (cs : List SizeClass) :
    poolSum (c :: cs) = c.total_size * c.free_count + poolSum cs := by
  simp [poolSum]

theorem poolSum_eq_zero_of (cs : List SizeClass)
    (h : ∀ c ∈ cs, c.free_count = 0) : poolSum cs = 0 := by
  induction cs with
  | nil => rfl
  | cons c cs ih =>
    rw [poolSum_cons, h c (by simp), ih (fun c' hc' => h c' (List.mem_cons_of_mem _ hc'))]
    simp

theorem getD_map {α β : Type} (l : List α) (f : α → β) (i : Nat)
    (d : α) (d' : β) (h : i < l.length) :
    (l.map f).getD i d' = f (l.getD i d) := by
  induction l generalizing i with
  | nil => simp at h
  | cons a l ih =>
    cases i with
    | zero => rfl
    | succ n =>
      simp only [List.length_cons, Nat.succ_lt_succ_iff] at h
      simpa using ih n h

theorem poolSum_ge_getD (cs : List SizeClass) (i : Nat) (h : i < cs.length) :
    (cs.getD i defaultClass).total_size * (cs.getD i defaultClass).free_count ≤
      poolSum cs := by
  induction cs generalizing i with
  | nil => simp at h
  | cons c cs ih =>
    cases i with
    | zero => simp [poolSum_cons]
    | succ n =>
      simp only [List.length_cons, Nat.succ_lt_succ_iff] at h
      calc (cs.getD n defaultClass).total_size * (cs.getD n defaultClass).free_count
          ≤ poolSum cs := ih n h
        _ ≤ poolSum (c :: cs) := by rw [poolSum_cons]; omega

theorem findSizeIdx_some (l : List Nat) (ts : Nat) (i : Nat)
    (h : findSizeIdx l ts = some i) : i < l.length ∧ l.getD i 0 = ts := by
  induction l generalizing i with
  | nil => simp [findSizeIdx] at h
  | cons s rest ih =>
    by_cases hle : ts ≤ s
    · by_cases heq : s = ts
      · simp [findSizeIdx, hle, heq] at h
        subst h
        exact ⟨by simp, heq⟩
      · simp [findSizeIdx, hle, heq] at h
    · simp only [findSizeIdx, if_neg hle] at h
      match hr : findSizeIdx rest ts with
      | none => rw [hr] at h; simp at h
      | some i' =>
        rw [hr] at h
        simp only [Option.map_some'] at h
        obtain rfl : i' + 1 = i := by simpa using h
        obtain ⟨h1, h2⟩ := ih i' hr
        exact ⟨by simpa using Nat.succ_lt_succ h1, by simpa using h2⟩

theorem lowerBoundPos_le (l : List Nat) (ts : Nat) :
    lowerBoundPos l ts ≤ l.length := by
  induction l with
  | nil => simp [lowerBoundPos]
  | cons s rest ih =>
    by_cases hle : ts ≤ s
    · simp [lowerBoundPos, hle]
    · simp only [lowerBoundPos, if_neg hle, List.length_cons]
      omega

theorem length_ladderFrom (s n : Nat) : (ladderFrom s n).length = n := by
  induction n generalizing s with
  | zero => rfl
  | succ m ih => simp [ladderFrom, ih]

theorem getD_ladderFrom (s n j : Nat) (h : j < n) :
    (ladderFrom s n).getD j 0 = s + 8 * j := by
  induction n generalizing s j with
  | zero => simp at h
  | succ m ih =>
    cases j with
    | zero => simp [ladderFrom]
    | succ k =>
      have := ih (s + 8) k (by omega)
      simp only [ladderFrom, List.getD_cons_succ]
      rw [this]; omega

theorem findSizeIdx_ladderFrom (n : Nat) :
    ∀ s j, j < n → findSizeIdx (ladderFrom s n) (s + 8 * j) = some j := by
  induction n with
  | zero => intro s j h; simp at h
  | succ m ih =>
    intro s j h
    cases j with
    | zero => simp [ladderFrom, findSizeIdx]
    | succ k =>
      have hlt : ¬ (s + 8 * (k + 1) ≤ s) := by omega
      have := ih (s + 8) k (by omega)
      simp only [ladderFrom, findSizeIdx, if_neg hlt]
      have harg : s + 8 * (k + 1) = s + 8 + 8 * k := by omega
      rw [harg, this]
      rfl

theorem seededSizes_length : seededSizes.length = 256 := by
  simp [seededSizes, length_ladderFrom]

theorem findSizeIdx_seeded (j : Nat) (h : j < 256) :
    findSizeIdx seededSizes (24 + 8 * j) = some j :=
  findSizeIdx_ladderFrom 256 24 j h

theorem getD_seeded (j : Nat) (h : j < 256) :
    seededSizes.getD j 0 = 24 + 8 * j :=
  getD_ladderFrom 24 256 j h

theorem calcAligned_ladder (u : Nat) (h : u ≤ MAX_USER_SIZE) :
    ∃ j, j < 256 ∧ calcAlignedTotalSize u = 24 + 8 * j := by
  by_cases h0 : u = 0
  · subst h0
    exact ⟨0, by omega, by decide⟩
  · refine ⟨(u + 23) / 8 - 3, ?_, ?_⟩
    · simp only [MAX_USER_SIZE] at h
      omega
    · simp only [calcAlignedTotalSize, alignUp, MIN_USER_SIZE, FREE_BLOCK_HEADER_SIZE,
        BLOCK_ALIGNMENT, MAX_USER_SIZE, if_neg h0] at *
      omega

theorem block_sizes_length (P : BaseMemoryPool) :
    P.block_sizes_.length = P.classes.length := by
  simp [block_sizes_]

theorem block_sizes_getD (P : BaseMemoryPool) (i : Nat)
    (h : i < P.classes.length) :
    P.block_sizes_.getD i 0 = (P.classAt i).total_size := by
  simpa [block_sizes_, classAt] using getD_map P.classes (·.total_size) i defaultClass 0 h

theorem findBlockSizeIndex_some (P : BaseMemoryPool) (ts i : Nat)
    (h : P.findBlockSizeIndex ts = some i) :
    i < P.classes.length ∧ (P.classAt i).total_size = ts := by
  obtain ⟨h1, h2⟩ := findSizeIdx_some _ _ _ h
  rw [block_sizes_length] at h1
  exact ⟨h1, by rw [← block_sizes_getD P i h1, h2]⟩

theorem findBlockSizeIndex_ladder (P : BaseMemoryPool) (hL : Ladder P)
    (j : Nat) (h : j < 256) :
    P.findBlockSizeIndex (24 + 8 * j) = some j := by
  rw [findBlockSizeIndex, hL]
  exact findSizeIdx_seeded j h

theorem ladder_classes_length (P : BaseMemoryPool) (hL : Ladder P) :
    P.classes.length = 256 := by
  have := congrArg List.length hL
  rw [block_sizes_length] at this
  rw [this, seededSizes_length]

theorem ladder_classAt_size (P : BaseMemoryPool) (hL : Ladder P)
    (j : Nat) (h : j < 256) : (P.classAt j).total_size = 24 + 8 * j := by
  have hlen : j < P.classes.length := by rw [ladder_classes_length P hL]; exact h
  rw [← block_sizes_getD P j hlen, hL, getD_seeded j h]

/-! ### deallocate: invariant preservation -/

theorem deallocate_none (P : BaseMemoryPool) :
    P.deallocate none = (.nullNoop, P) := rfl

theorem deallocate_poolInv (P : BaseMemoryPool) (ptr : Option FreeBlock)
    (h : PoolInv P) : PoolInv (P.deallocate ptr).2 := by
  obtain ⟨hA, hS, hL⟩ := h
  match ptr with
  | none => exact ⟨hA, hS, hL⟩
  | some b =>
    by_cases hsmall : b.size = 0 ∨ b.size < calcAlignedTotalSize MIN_USER_SIZE
    · simp only [deallocate, if_pos hsmall]
      exact ⟨hA, hS, hL⟩
    · match hf : P.findBlockSizeIndex b.size with
      | none =>
        simp only [deallocate, if_neg hsmall, hf]
        exact ⟨hA, hS, hL⟩
      | some idx =>
        obtain ⟨hlt, hsz⟩ := findBlockSizeIndex_some P b.size idx hf
        simp only [deallocate, if_neg hsmall, hf]
        have hc0 : (P.classes.getD idx defaultClass).total_size = b.size := hsz
        refine ⟨?_, ?_, ?_⟩
        · intro c hc
          rcases mem_updateAt _ _ _ defaultClass c hc with hc' | ⟨_, rfl⟩
          · exact hA c hc'
          · intro bb hbb
            rcases List.mem_cons.mp hbb with rfl | hbb'
            · exact hc0.symm
            · exact hA _ (getD_eq_of_mem_getD _ _ _ hlt) bb hbb'
        · have hsum := sum_map_updateAt P.classes idx
            (fun c => { c with free_list := b :: c.free_list, free_count := c.free_count + 1 })
            (fun c => c.total_size * c.free_count) defaultClass hlt
          have hsum' : poolSum (updateAt P.classes idx
              (fun c => { c with free_list := b :: c.free_list, free_count := c.free_count + 1 })) +
              (P.classes.getD idx defaultClass).total_size * (P.classes.getD idx defaultClass).free_count =
              poolSum P.classes +
              (P.classes.getD idx defaultClass).total_size * ((P.classes.getD idx defaultClass).free_count + 1) := hsum
          have hexp : (P.classes.getD idx defaultClass).total_size *
              ((P.classes.getD idx defaultClass).free_count + 1) =
              (P.classes.getD idx defaultClass).total_size *
              (P.classes.getD idx defaultClass).free_count +
              (P.classes.getD idx defaultClass).total_size := by ring
          have hgoal : poolSum (updateAt P.classes idx
              (fun c => { c with free_list := b :: c.free_list, free_count := c.free_count + 1 })) =
              P.total_free_memory_ + b.size := by
            have hSu : poolSum P.classes = P.total_free_memory_ := hS
            clear hsum hS hA hL
            omega
          exact hgoal
        · intro c hc
          rcases mem_updateAt _ _ _ defaultClass c hc with hc' | ⟨_, rfl⟩
          · exact hL c hc'
          · simpa using Nat.succ_le_succ (hL _ (getD_eq_of_mem_getD _ _ _ hlt))

theorem deallocate_block_sizes (P : BaseMemoryPool) (ptr : Option FreeBlock) :
    ((P.deallocate ptr).2).block_sizes_ = P.block_sizes_ := by
  match ptr with
  | none => rfl
  | some b =>
    by_cases hsmall : b.size = 0 ∨ b.size < calcAlignedTotalSize MIN_USER_SIZE
    · simp [deallocate, hsmall]
    · match hf : P.findBlockSizeIndex b.size with
      | none => simp [deallocate, hsmall, hf]
      | some idx =>
        simp only [deallocate, if_neg hsmall, hf, block_sizes_]
        exact map_updateAt_of_fix _ _ _ _ (fun c => rfl)

theorem deallocate_ladder (P : BaseMemoryPool) (ptr : Option FreeBlock)
    (h : Ladder P) : Ladder (P.deallocate ptr).2 := by
  rw [Ladder, deallocate_block_sizes]; exact h

theorem deallocate_deltaLe1 (P : BaseMemoryPool) (ptr : Option FreeBlock)
    (h : DeltaLe1 P) : DeltaLe1 (P.deallocate ptr).2 := by
  match ptr with
  | none => exact h
  | some b =>
    by_cases hsmall : b.size = 0 ∨ b.size < calcAlignedTotalSize MIN_USER_SIZE
    · simp only [deallocate, if_pos hsmall]; exact h
    · match hf : P.findBlockSizeIndex b.size with
      | none => simp only [deallocate, if_neg hsmall, hf]; exact h
      | some idx =>
        obtain ⟨hlt, _⟩ := findBlockSizeIndex_some P b.size idx hf
        simp only [deallocate, if_neg hsmall, hf]
        intro c hc
        rcases mem_updateAt _ _ _ defaultClass c hc with hc' | ⟨_, rfl⟩
        · exact h c hc'
        · simpa using Nat.succ_le_succ (h _ (getD_eq_of_mem_getD _ _ _ hlt))

theorem deallocate_lenEq (P : BaseMemoryPool) (ptr : Option FreeBlock)
    (h : LenEq P) : LenEq (P.deallocate ptr).2 := by
  match ptr with
  | none => exact h
  | some b =>
    by_cases hsmall : b.size = 0 ∨ b.size < calcAlignedTotalSize MIN_USER_SIZE
    · simp only [deallocate, if_pos hsmall]; exact h
    · match hf : P.findBlockSizeIndex b.size with
      | none => simp only [deallocate, if_neg hsmall, hf]; exact h
      | some idx =>
        obtain ⟨hlt, _⟩ := findBlockSizeIndex_some P b.size idx hf
        simp only [deallocate, if_neg hsmall, hf]
        intro c hc
        rcases mem_updateAt _ _ _ defaultClass c hc with hc' | ⟨_, rfl⟩
        · exact h c hc'
        · simpa using congrArg Nat.succ (h _ (getD_eq_of_mem_getD _ _ _ hlt))

/-! ### Generic helpers for class-table surgery -/

theorem pred_mem_updateAt (p : SizeClass → Prop) (cs : List SizeClass)
    (idx : Nat) (f : SizeClass → SizeClass)
    (hall : ∀ c ∈ cs, p c)
    (hf : idx < cs.length → p (f (cs.getD idx defaultClass))) :
    ∀ c ∈ updateAt cs idx f, p c := by
  intro c hc
  rcases mem_updateAt _ _ _ defaultClass c hc with hc' | ⟨hlt, rfl⟩
  · exact hall c hc'
  · exact hf hlt

theorem pred_mem_insertAt (p : SizeClass → Prop) (cs : List SizeClass)
    (pos : Nat) (x : SizeClass)
    (hall : ∀ c ∈ cs, p c) (hx : p x) :
    ∀ c ∈ insertAt cs pos x, p c := by
  intro c hc
  rcases mem_insertAt _ _ _ _ hc with rfl | hc'
  · exact hx
  · exact hall c hc'

theorem poolSum_updateAt_f (cs : List SizeClass) (idx : Nat)
    (f : SizeClass → SizeClass) (h : idx < cs.length)
    (hsz : (f (cs.getD idx defaultClass)).total_size =
      (cs.getD idx defaultClass).total_size) :
    poolSum (updateAt cs idx f) +
      (cs.getD idx defaultClass).total_size * (cs.getD idx defaultClass).free_count =
    poolSum cs +
      (cs.getD idx defaultClass).total_size * (f (cs.getD idx defaultClass)).free_count := by
  have hsum := sum_map_updateAt cs idx f
    (fun c => c.total_size * c.free_count) defaultClass h
  have hsum' : poolSum (updateAt cs idx f) +
      (cs.getD idx defaultClass).total_size * (cs.getD idx defaultClass).free_count =
      poolSum cs +
      (f (cs.getD idx defaultClass)).total_size * (f (cs.getD idx defaultClass)).free_count := hsum
  rw [hsz] at hsum'
  exact hsum'

/-! ### locateIndex lemmas -/

theorem locateIndex_found (P : BaseMemoryPool) (ts i : Nat)
    (h : P.findBlockSizeIndex ts = some i) : P.locateIndex ts = (i, P) := by
  simp [locateIndex, h]

theorem locateIndex_classAt (P : BaseMemoryPool) (ts : Nat) :
    (P.locateIndex ts).1 < ((P.locateIndex ts).2).classes.length ∧
    (((P.locateIndex ts).2).classAt (P.locateIndex ts).1).total_size = ts := by
  match hf : P.findBlockSizeIndex ts with
  | some i =>
    rw [locateIndex_found P ts i hf]
    exact findBlockSizeIndex_some P ts i hf
  | none =>
    have hle : lowerBoundPos P.block_sizes_ ts ≤ P.classes.length := by
      have := lowerBoundPos_le P.block_sizes_ ts
      rwa [block_sizes_length] at this
    simp only [locateIndex, hf, addBlockSizeIfNotExist]
    constructor
    · rw [length_insertAt _ _ _ hle]
      omega
    · simp only [classAt]
      rw [getD_insertAt_self _ _ _ _ hle]

theorem locateIndex_counters (P : BaseMemoryPool) (ts : Nat) :
    ((P.locateIndex ts).2).allocate_count_ = P.allocate_count_ ∧
    ((P.locateIndex ts).2).deallocate_count_ = P.deallocate_count_ ∧
    ((P.locateIndex ts).2).total_free_memory_ = P.total_free_memory_ ∧
    ((P.locateIndex ts).2).total_allocated_memory_ = P.total_allocated_memory_ ∧
    ((P.locateIndex ts).2).next_page_ = P.next_page_ := by
  match hf : P.findBlockSizeIndex ts with
  | some i => simp [locateIndex, hf]
  | none => simp [locateIndex, hf, addBlockSizeIfNotExist]

theorem locateIndex_poolInv (P : BaseMemoryPool) (ts : Nat)
    (h : PoolInv P) : PoolInv ((P.locateIndex ts).2) := by
  obtain ⟨hA, hS, hL⟩ := h
  match hf : P.findBlockSizeIndex ts with
  | some i => rw [locateIndex_found P ts i hf]; exact ⟨hA, hS, hL⟩
  | none =>
    simp only [locateIndex, hf, addBlockSizeIfNotExist]
    refine ⟨?_, ?_, ?_⟩
    · exact pred_mem_insertAt _ _ _ _ hA (by intro bb hbb; simp at hbb)
    · show poolSum (insertAt P.classes (lowerBoundPos P.block_sizes_ ts) ⟨ts, [], 0⟩) =
        P.total_free_memory_
      have := sum_map_insertAt P.classes (lowerBoundPos P.block_sizes_ ts) ⟨ts, [], 0⟩
        (fun c => c.total_size * c.free_count)
      have hS' : poolSum P.classes = P.total_free_memory_ := hS
      have h2 : poolSum (insertAt P.classes (lowerBoundPos P.block_sizes_ ts) ⟨ts, [], 0⟩) =
          ts * 0 + poolSum P.classes := this
      rw [h2]
      omega
    · exact pred_mem_insertAt _ _ _ _ hL (by simp)

/-! ### allocateBatch lemmas -/

theorem allocateBatch_some_iff (P : BaseMemoryPool) (ts idx : Nat)
    (hidx : idx < P.classes.length) (h0 : 0 < ts) (hP : ts ≤ PAGE_SIZE) :
    P.allocateBatch ts idx = some { P with
      classes := updateAt P.classes idx (fun c =>
        { c with
          free_list := (List.range (PAGE_SIZE / ts)).map
            (fun i => ⟨ts, P.next_page_ + i * ts⟩),
          free_count := c.free_count + PAGE_SIZE / ts }),
      total_free_memory_ := P.total_free_memory_ + ts * (PAGE_SIZE / ts),
      total_allocated_memory_ := P.total_allocated_memory_ + PAGE_SIZE,
      next_page_ := P.next_page_ + PAGE_SIZE } := by
  have h1 : ¬ (P.classes.length ≤ idx) := by omega
  have h2 : ¬ (ts = 0 ∨ PAGE_SIZE < ts) := by omega
  have h3 : ¬ (PAGE_SIZE / ts = 0) := by
    have := Nat.one_le_div_iff h0 |>.mpr hP
    omega
  simp only [allocateBatch, if_neg h1, if_neg h2, if_neg h3]

theorem allocateBatch_poolInv (P : BaseMemoryPool) (ts idx : Nat)
    (hsz : (P.classAt idx).total_size = ts) (h : PoolInv P) :
    ∀ P2, P.allocateBatch ts idx = some P2 → PoolInv P2 := by
  intro P2 hP2
  obtain ⟨hA, hS, hL⟩ := h
  by_cases h1 : P.classes.length ≤ idx
  · simp [allocateBatch, h1] at hP2
  by_cases h2 : ts = 0 ∨ PAGE_SIZE < ts
  · simp [allocateBatch, h1, h2] at hP2
  by_cases h3 : PAGE_SIZE / ts = 0
  · simp [allocateBatch, h1, h2, h3] at hP2
  simp only [allocateBatch, if_neg h1, if_neg h2, if_neg h3, Option.some.injEq] at hP2
  subst hP2
  have hlt : idx < P.classes.length := by omega
  refine ⟨?_, ?_, ?_⟩
  · refine pred_mem_updateAt _ _ _ _ hA ?_
    intro _ bb hbb
    simp only [List.mem_map, List.mem_range] at hbb
    obtain ⟨i, _, rfl⟩ := hbb
    exact hsz ▸ rfl
  · have hps := poolSum_updateAt_f P.classes idx
      (fun c => { c with
        free_list := (List.range (PAGE_SIZE / ts)).map
          (fun i => ⟨ts, P.next_page_ + i * ts⟩),
        free_count := c.free_count + PAGE_SIZE / ts }) hlt rfl
    have hsz' : (P.classes.getD idx defaultClass).total_size = ts := hsz
    have hS' : poolSum P.classes = P.total_free_memory_ := hS
    have hps' : poolSum (updateAt P.classes idx
        (fun c => { c with
          free_list := (List.range (PAGE_SIZE / ts)).map
            (fun i => ⟨ts, P.next_page_ + i * ts⟩),
          free_count := c.free_count + PAGE_SIZE / ts })) +
        (P.classes.getD idx defaultClass).total_size *
          (P.classes.getD idx defaultClass).free_count =
        poolSum P.classes +
        (P.classes.getD idx defaultClass).total_size *
          ((P.classes.getD idx defaultClass).free_count + PAGE_SIZE / ts) := hps
    have hexp : (P.classes.getD idx defaultClass).total_size *
        ((P.classes.getD idx defaultClass).free_count + PAGE_SIZE / ts) =
        (P.classes.getD idx defaultClass).total_size *
          (P.classes.getD idx defaultClass).free_count +
        (P.classes.getD idx defaultClass).total_size * (PAGE_SIZE / ts) := by ring
    rw [hsz'] at hps' hexp
    show poolSum (updateAt P.classes idx
        (fun c => { c with
          free_list := (List.range (PAGE_SIZE / ts)).map
            (fun i => ⟨ts, P.next_page_ + i * ts⟩),
          free_count := c.free_count + PAGE_SIZE / ts })) =
        P.total_free_memory_ + ts * (PAGE_SIZE / ts)
    omega
  · refine pred_mem_updateAt _ _ _ _ hL ?_
    intro _
    show ((List.range (PAGE_SIZE / ts)).map
        (fun i => (⟨ts, P.next_page_ + i * ts⟩ : FreeBlock))).length ≤
      (P.classes.getD idx defaultClass).free_count + PAGE_SIZE / ts
    simp

theorem allocateBatch_nonempty (P : BaseMemoryPool) (ts idx : Nat) :
    ∀ P2, P.allocateBatch ts idx = some P2 →
      (P2.classAt idx).free_list ≠ [] := by
  intro P2 hP2
  by_cases h1 : P.classes.length ≤ idx
  · simp [allocateBatch, h1] at hP2
  by_cases h2 : ts = 0 ∨ PAGE_SIZE < ts
  · simp [allocateBatch, h1, h2] at hP2
  by_cases h3 : PAGE_SIZE / ts = 0
  · simp [allocateBatch, h1, h2, h3] at hP2
  simp only [allocateBatch, if_neg h1, if_neg h2, if_neg h3, Option.some.injEq] at hP2
  subst hP2
  have hlt : idx < P.classes.length := by omega
  show ((updateAt P.classes idx _).getD idx defaultClass).free_list ≠ []
  rw [getD_updateAt_self _ _ _ _ hlt]
  have : PAGE_SIZE / ts ≠ 0 := h3
  simp only []
  intro hcon
  have := congrArg List.length hcon
  simp at this
  omega

theorem allocateBatch_counters (P : BaseMemoryPool) (ts idx : Nat) :
    ∀ P2, P.allocateBatch ts idx = some P2 →
      P2.allocate_count_ = P.allocate_count_ ∧
      P2.deallocate_count_ = P.deallocate_count_ := by
  intro P2 hP2
  by_cases h1 : P.classes.length ≤ idx
  · simp [allocateBatch, h1] at hP2
  by_cases h2 : ts = 0 ∨ PAGE_SIZE < ts
  · simp [allocateBatch, h1, h2] at hP2
  by_cases h3 : PAGE_SIZE / ts = 0
  · simp [allocateBatch, h1, h2, h3] at hP2
  simp only [allocateBatch, if_neg h1, if_neg h2, if_neg h3, Option.some.injEq] at hP2
  subst hP2
  exact ⟨rfl, rfl⟩

theorem allocateBatch_block_sizes (P : BaseMemoryPool) (ts idx : Nat) :
    ∀ P2, P.allocateBatch ts idx = some P2 →
      P2.block_sizes_ = P.block_sizes_ := by
  intro P2 hP2
  by_cases h1 : P.classes.length ≤ idx
  · simp [allocateBatch, h1] at hP2
  by_cases h2 : ts = 0 ∨ PAGE_SIZE < ts
  · simp [allocateBatch, h1, h2] at hP2
  by_cases h3 : PAGE_SIZE / ts = 0
  · simp [allocateBatch, h1, h2, h3] at hP2
  simp only [allocateBatch, if_neg h1, if_neg h2, if_neg h3, Option.some.injEq] at hP2
  subst hP2
  show (updateAt P.classes idx _).map (·.total_size) = P.classes.map (·.total_size)
  exact map_updateAt_of_fix _ _ _ _ (fun c => rfl)

/-! ### stockClass, popHead, allocate lemmas -/

theorem stockClass_poolInv (P : BaseMemoryPool) (ts idx : Nat)
    (hsz : (P.classAt idx).total_size = ts) (h : PoolInv P) :
    ∀ P2, stockClass P ts idx = some P2 → PoolInv P2 := by
  intro P2 hP2
  by_cases he : (P.classAt idx).free_list.isEmpty
  · simp only [stockClass, if_pos he] at hP2
    exact allocateBatch_poolInv P ts idx hsz h P2 hP2
  · simp only [stockClass, if_neg he, Option.some.injEq] at hP2
    subst hP2
    exact h

theorem stockClass_classAt_size (P : BaseMemoryPool) (ts idx : Nat)
    (hlt : idx < P.classes.length)
    (hsz : (P.classAt idx).total_size = ts) :
    ∀ P2, stockClass P ts idx = some P2 →
      (P2.classAt idx).total_size = ts ∧ idx < P2.classes.length := by
  intro P2 hP2
  by_cases he : (P.classAt idx).free_list.isEmpty
  · simp only [stockClass, if_pos he] at hP2
    by_cases h1 : P.classes.length ≤ idx
    · simp [allocateBatch, h1] at hP2
    by_cases h2 : ts = 0 ∨ PAGE_SIZE < ts
    · simp [allocateBatch, h1, h2] at hP2
    by_cases h3 : PAGE_SIZE / ts = 0
    · simp [allocateBatch, h1, h2, h3] at hP2
    simp only [allocateBatch, if_neg h1, if_neg h2, if_neg h3, Option.some.injEq] at hP2
    subst hP2
    constructor
    · show ((updateAt P.classes idx _).getD idx defaultClass).total_size = ts
      rw [getD_updateAt_self _ _ _ _ hlt]
      exact hsz
    · show idx < (updateAt P.classes idx _).length
      rw [length_updateAt]
      exact hlt
  · simp only [stockClass, if_neg he, Option.some.injEq] at hP2
    subst hP2
    exact ⟨hsz, hlt⟩

theorem stockClass_nonempty (P : BaseMemoryPool) (ts idx : Nat) :
    ∀ P2, stockClass P ts idx = some P2 →
      (P2.classAt idx).free_list ≠ [] := by
  intro P2 hP2
  by_cases he : (P.classAt idx).free_list.isEmpty
  · simp only [stockClass, if_pos he] at hP2
    exact allocateBatch_nonempty P ts idx P2 hP2
  · simp only [stockClass, if_neg he, Option.some.injEq] at hP2
    subst hP2
    simpa [List.isEmpty_iff] using he

theorem stockClass_counters (P : BaseMemoryPool) (ts idx : Nat) :
    ∀ P2, stockClass P ts idx = some P2 →
      P2.allocate_count_ = P.allocate_count_ ∧
      P2.deallocate_count_ = P.deallocate_count_ := by
  intro P2 hP2
  by_cases he : (P.classAt idx).free_list.isEmpty
  · simp only [stockClass, if_pos he] at hP2
    exact allocateBatch_counters P ts idx P2 hP2
  · simp only [stockClass, if_neg he, Option.some.injEq] at hP2
    subst hP2
    exact ⟨rfl, rfl⟩

theorem popHead_poolInv (P : BaseMemoryPool) (idx : Nat)
    (hlt : idx < P.classes.length) (h : PoolInv P) :
    PoolInv (P.popHead idx).2 := by
  obtain ⟨hA, hS, hL⟩ := h
  match hl : (P.classAt idx).free_list with
  | [] => simp only [popHead, hl]; exact ⟨hA, hS, hL⟩
  | b :: rest =>
    simp only [popHead, hl]
    have hmem : P.classes.getD idx defaultClass ∈ P.classes :=
      getD_eq_of_mem_getD _ _ _ hlt
    have hbmem : b ∈ (P.classes.getD idx defaultClass).free_list := by
      have hl' : (P.classes.getD idx defaultClass).free_list = b :: rest := hl
      rw [hl']
      simp
    have hbsz : b.size = (P.classes.getD idx defaultClass).total_size :=
      hA _ hmem b hbmem
    have hcnt : 1 ≤ (P.classes.getD idx defaultClass).free_count := by
      have := hL _ hmem
      have hl' : (P.classes.getD idx defaultClass).free_list = b :: rest := hl
      rw [hl'] at this
      simp only [List.length_cons] at this
      omega
    refine ⟨?_, ?_, ?_⟩
    · refine pred_mem_updateAt _ _ _ _ hA ?_
      intro _ bb hbb
      show bb.size = (P.classes.getD idx defaultClass).total_size
      refine hA _ hmem bb ?_
      have hl' : (P.classes.getD idx defaultClass).free_list = b :: rest := hl
      rw [hl']
      exact List.mem_cons_of_mem _ hbb
    · have hps := poolSum_updateAt_f P.classes idx
        (fun c => { c with free_list := rest, free_count := c.free_count - 1 }) hlt rfl
      have hps' : poolSum (updateAt P.classes idx
          (fun c => { c with free_list := rest, free_count := c.free_count - 1 })) +
          (P.classes.getD idx defaultClass).total_size *
            (P.classes.getD idx defaultClass).free_count =
          poolSum P.classes +
          (P.classes.getD idx defaultClass).total_size *
            ((P.classes.getD idx defaultClass).free_count - 1) := hps
      obtain ⟨m, hm⟩ : ∃ m, (P.classes.getD idx defaultClass).free_count = m + 1 :=
        ⟨(P.classes.getD idx defaultClass).free_count - 1, by omega⟩
      rw [hm] at hps'
      have he1 : (P.classes.getD idx defaultClass).total_size * (m + 1) =
          (P.classes.getD idx defaultClass).total_size * m +
          (P.classes.getD idx defaultClass).total_size := by ring
      have he2 : (P.classes.getD idx defaultClass).total_size * (m + 1 - 1) =
          (P.classes.getD idx defaultClass).total_size * m := by
        congr 1
      have hge : (P.classes.getD idx defaultClass).total_size *
          (P.classes.getD idx defaultClass).free_count ≤ poolSum P.classes :=
        poolSum_ge_getD P.classes idx hlt
      rw [hm] at hge
      have hS' : poolSum P.classes = P.total_free_memory_ := hS
      show poolSum (updateAt P.classes idx
          (fun c => { c with free_list := rest, free_count := c.free_count - 1 })) =
          P.total_free_memory_ - b.size
      rw [hbsz]
      omega
    · refine pred_mem_updateAt _ _ _ _ hL ?_
      intro _
      show rest.length ≤ (P.classes.getD idx defaultClass).free_count - 1
      have := hL _ hmem
      have hl' : (P.classes.getD idx defaultClass).free_list = b :: rest := hl
      rw [hl'] at this
      simp only [List.length_cons] at this
      omega

theorem allocate_poolInv (P : BaseMemoryPool) (u : Nat) (h : PoolInv P) :
    PoolInv (P.allocate u).2 := by
  by_cases hbig : MAX_USER_SIZE < u
  · simp only [allocate, if_pos hbig]
    exact h
  · simp only [allocate, if_neg hbig]
    obtain ⟨hlt, hsz⟩ := locateIndex_classAt P (calcAlignedTotalSize u)
    have hinv1 := locateIndex_poolInv P (calcAlignedTotalSize u) h
    match hstock : stockClass (P.locateIndex (calcAlignedTotalSize u)).2
        (calcAlignedTotalSize u) (P.locateIndex (calcAlignedTotalSize u)).1 with
    | none => exact hinv1
    | some P2 =>
      obtain ⟨hsz2, hlt2⟩ := stockClass_classAt_size _ _ _ hlt hsz P2 hstock
      exact popHead_poolInv P2 _ hlt2 (stockClass_poolInv _ _ _ hsz hinv1 P2 hstock)

/-! ### reclaimClass lemmas -/

theorem reclaimClass_skip (c : SizeClass)
    (h : c.free_count ≤ RESERVE_BLOCK_COUNT ∨ PAGE_SIZE / c.total_size = 0 ∨
      (c.free_count - RESERVE_BLOCK_COUNT) / (PAGE_SIZE / c.total_size) *
        (PAGE_SIZE / c.total_size) = 0 ∨ c.free_list.isEmpty = true) :
    reclaimClass c = (0, c) := by
  by_cases h1 : c.free_count ≤ RESERVE_BLOCK_COUNT
  · simp [reclaimClass, h1]
  by_cases h2 : PAGE_SIZE / c.total_size = 0
  · simp [reclaimClass, h1, h2]
  by_cases h3 : (c.free_count - RESERVE_BLOCK_COUNT) / (PAGE_SIZE / c.total_size) *
      (PAGE_SIZE / c.total_size) = 0
  · simp [reclaimClass, h1, h2, h3]
  by_cases h4 : c.free_list.isEmpty
  · simp [reclaimClass, h1, h2, h3, h4]
  · rcases h with h | h | h | h <;> simp_all

theorem reclaimClass_go (c : SizeClass)
    (h1 : ¬ c.free_count ≤ RESERVE_BLOCK_COUNT)
    (h2 : ¬ PAGE_SIZE / c.total_size = 0)
    (h3 : ¬ (c.free_count - RESERVE_BLOCK_COUNT) / (PAGE_SIZE / c.total_size) *
        (PAGE_SIZE / c.total_size) = 0)
    (h4 : ¬ c.free_list.isEmpty = true) :
    reclaimClass c =
      (c.total_size * ((c.free_count - RESERVE_BLOCK_COUNT) / (PAGE_SIZE / c.total_size) *
        (PAGE_SIZE / c.total_size)),
       { c with
         free_list := c.free_list.take (min
           (c.free_count - (c.free_count - RESERVE_BLOCK_COUNT) / (PAGE_SIZE / c.total_size) *
             (PAGE_SIZE / c.total_size) - 1) (c.free_list.length - 1)),
         free_count := c.free_count - (c.free_count - RESERVE_BLOCK_COUNT) /
           (PAGE_SIZE / c.total_size) * (PAGE_SIZE / c.total_size) }) := by
  simp only [reclaimClass, if_neg h1, if_neg h2, if_neg h3, if_neg h4]

theorem reclaimClass_total_size (c : SizeClass) :
    (reclaimClass c).2.total_size = c.total_size := by
  by_cases hskip : c.free_count ≤ RESERVE_BLOCK_COUNT ∨ PAGE_SIZE / c.total_size = 0 ∨
      (c.free_count - RESERVE_BLOCK_COUNT) / (PAGE_SIZE / c.total_size) *
        (PAGE_SIZE / c.total_size) = 0 ∨ c.free_list.isEmpty = true
  · rw [reclaimClass_skip c hskip]
  · push_neg at hskip
    obtain ⟨h1, h2, h3, h4⟩ := hskip
    rw [reclaimClass_go c (not_le.mpr h1) h2 h3 (by simpa using h4)]

theorem reclaimClass_account (c : SizeClass) :
    (reclaimClass c).2.total_size * (reclaimClass c).2.free_count +
      (reclaimClass c).1 = c.total_size * c.free_count := by
  by_cases hskip : c.free_count ≤ RESERVE_BLOCK_COUNT ∨ PAGE_SIZE / c.total_size = 0 ∨
      (c.free_count - RESERVE_BLOCK_COUNT) / (PAGE_SIZE / c.total_size) *
        (PAGE_SIZE / c.total_size) = 0 ∨ c.free_list.isEmpty = true
  · rw [reclaimClass_skip c hskip]
    simp
  · push_neg at hskip
    obtain ⟨h1, h2, h3, h4⟩ := hskip
    rw [reclaimClass_go c (not_le.mpr h1) h2 h3 (by simpa using h4)]
    show c.total_size * (c.free_count - (c.free_count - RESERVE_BLOCK_COUNT) /
        (PAGE_SIZE / c.total_size) * (PAGE_SIZE / c.total_size)) +
      c.total_size * ((c.free_count - RESERVE_BLOCK_COUNT) / (PAGE_SIZE / c.total_size) *
        (PAGE_SIZE / c.total_size)) = c.total_size * c.free_count
    have hrel : (c.free_count - RESERVE_BLOCK_COUNT) / (PAGE_SIZE / c.total_size) *
        (PAGE_SIZE / c.total_size) ≤ c.free_count := by
      have h5 := Nat.div_mul_le_self (c.free_count - RESERVE_BLOCK_COUNT)
        (PAGE_SIZE / c.total_size)
      omega
    rw [← Nat.mul_add]
    congr 1
    omega

theorem reclaimClass_rel_le (c : SizeClass) :
    (reclaimClass c).1 ≤ c.total_size * c.free_count := by
  have h := reclaimClass_account c
  omega

theorem reclaimClass_mem_free_list (c : SizeClass) :
    ∀ b ∈ (reclaimClass c).2.free_list, b ∈ c.free_list := by
  by_cases hskip : c.free_count ≤ RESERVE_BLOCK_COUNT ∨ PAGE_SIZE / c.total_size = 0 ∨
      (c.free_count - RESERVE_BLOCK_COUNT) / (PAGE_SIZE / c.total_size) *
        (PAGE_SIZE / c.total_size) = 0 ∨ c.free_list.isEmpty = true
  · rw [reclaimClass_skip c hskip]
    intro b hb
    exact hb
  · push_neg at hskip
    obtain ⟨h1, h2, h3, h4⟩ := hskip
    rw [reclaimClass_go c (not_le.mpr h1) h2 h3 (by simpa using h4)]
    intro b hb
    exact List.mem_of_mem_take hb

theorem reclaimClass_lenLe (c : SizeClass)
    (h : c.free_list.length ≤ c.free_count) :
    (reclaimClass c).2.free_list.length ≤ (reclaimClass c).2.free_count := by
  by_cases hskip : c.free_count ≤ RESERVE_BLOCK_COUNT ∨ PAGE_SIZE / c.total_size = 0 ∨
      (c.free_count - RESERVE_BLOCK_COUNT) / (PAGE_SIZE / c.total_size) *
        (PAGE_SIZE / c.total_size) = 0 ∨ c.free_list.isEmpty = true
  · rw [reclaimClass_skip c hskip]
    exact h
  · push_neg at hskip
    obtain ⟨h1, h2, h3, h4⟩ := hskip
    rw [reclaimClass_go c (not_le.mpr h1) h2 h3 (by simpa using h4)]
    show (c.free_list.take (min
        (c.free_count - (c.free_count - RESERVE_BLOCK_COUNT) / (PAGE_SIZE / c.total_size) *
          (PAGE_SIZE / c.total_size) - 1) (c.free_list.length - 1))).length ≤
      c.free_count - (c.free_count - RESERVE_BLOCK_COUNT) / (PAGE_SIZE / c.total_size) *
        (PAGE_SIZE / c.total_size)
    rw [List.length_take]
    have hrel : (c.free_count - RESERVE_BLOCK_COUNT) / (PAGE_SIZE / c.total_size) *
        (PAGE_SIZE / c.total_size) ≤ c.free_count - RESERVE_BLOCK_COUNT :=
      Nat.div_mul_le_self _ _
    have hR : RESERVE_BLOCK_COUNT = 4 := rfl
    omega

theorem reclaimClass_deltaLe1 (c : SizeClass)
    (h : c.free_count ≤ c.free_list.length + 1) :
    (reclaimClass c).2.free_count ≤ (reclaimClass c).2.free_list.length + 1 := by
  by_cases hskip : c.free_count ≤ RESERVE_BLOCK_COUNT ∨ PAGE_SIZE / c.total_size = 0 ∨
      (c.free_count - RESERVE_BLOCK_COUNT) / (PAGE_SIZE / c.total_size) *
        (PAGE_SIZE / c.total_size) = 0 ∨ c.free_list.isEmpty = true
  · rw [reclaimClass_skip c hskip]
    exact h
  · push_neg at hskip
    obtain ⟨h1, h2, h3, h4⟩ := hskip
    rw [reclaimClass_go c (not_le.mpr h1) h2 h3 (by simpa using h4)]
    show c.free_count - (c.free_count - RESERVE_BLOCK_COUNT) / (PAGE_SIZE / c.total_size) *
        (PAGE_SIZE / c.total_size) ≤
      (c.free_list.take (min
        (c.free_count - (c.free_count - RESERVE_BLOCK_COUNT) / (PAGE_SIZE / c.total_size) *
          (PAGE_SIZE / c.total_size) - 1) (c.free_list.length - 1))).length + 1
    rw [List.length_take]
    have hrel : (c.free_count - RESERVE_BLOCK_COUNT) / (PAGE_SIZE / c.total_size) *
        (PAGE_SIZE / c.total_size) ≤ c.free_count - RESERVE_BLOCK_COUNT :=
      Nat.div_mul_le_self _ _
    have hR : RESERVE_BLOCK_COUNT = 4 := rfl
    have h3' : 1 ≤ (c.free_count - RESERVE_BLOCK_COUNT) / (PAGE_SIZE / c.total_size) *
        (PAGE_SIZE / c.total_size) := by omega
    omega

theorem reclaimClass_count_bound (c : SizeClass)
    (hpos : 0 < c.total_size) (hle : c.total_size ≤ PAGE_SIZE)
    (hdelta : c.free_count ≤ c.free_list.length + 1) :
    (reclaimClass c).2.free_count ≤ 3 + PAGE_SIZE / c.total_size := by
  have hbpp : 1 ≤ PAGE_SIZE / c.total_size := (Nat.one_le_div_iff hpos).mpr hle
  have hR : RESERVE_BLOCK_COUNT = 4 := rfl
  by_cases h1 : c.free_count ≤ RESERVE_BLOCK_COUNT
  · rw [reclaimClass_skip c (Or.inl h1)]
    show c.free_count ≤ 3 + PAGE_SIZE / c.total_size
    omega
  by_cases h3 : (c.free_count - RESERVE_BLOCK_COUNT) / (PAGE_SIZE / c.total_size) *
      (PAGE_SIZE / c.total_size) = 0
  · rw [reclaimClass_skip c (Or.inr (Or.inr (Or.inl h3)))]
    show c.free_count ≤ 3 + PAGE_SIZE / c.total_size
    have hdiv : (c.free_count - RESERVE_BLOCK_COUNT) / (PAGE_SIZE / c.total_size) = 0 := by
      rcases Nat.mul_eq_zero.mp h3 with h | h
      · exact h
      · omega
    have hsmall := (Nat.div_eq_zero_iff (by omega)).mp hdiv
    omega
  by_cases h4 : c.free_list.isEmpty
  · rw [reclaimClass_skip c (Or.inr (Or.inr (Or.inr h4)))]
    show c.free_count ≤ 3 + PAGE_SIZE / c.total_size
    have hnil : c.free_list = [] := by simpa [List.isEmpty_iff] using h4
    rw [hnil] at hdelta
    simp only [List.length_nil] at hdelta
    omega
  · rw [reclaimClass_go c h1 (by omega) h3 (by simpa using h4)]
    show c.free_count - (c.free_count - RESERVE_BLOCK_COUNT) / (PAGE_SIZE / c.total_size) *
        (PAGE_SIZE / c.total_size) ≤ 3 + PAGE_SIZE / c.total_size
    have hdm := Nat.div_add_mod' (c.free_count - RESERVE_BLOCK_COUNT) (PAGE_SIZE / c.total_size)
    have hmod := Nat.mod_lt (c.free_count - RESERVE_BLOCK_COUNT)
      (by omega : 0 < PAGE_SIZE / c.total_size)
    omega

theorem reclaimClass_idem (c : SizeClass) :
    reclaimClass ((reclaimClass c).2) = (0, (reclaimClass c).2) := by
  have hR : RESERVE_BLOCK_COUNT = 4 := rfl
  by_cases hskip : c.free_count ≤ RESERVE_BLOCK_COUNT ∨ PAGE_SIZE / c.total_size = 0 ∨
      (c.free_count - RESERVE_BLOCK_COUNT) / (PAGE_SIZE / c.total_size) *
        (PAGE_SIZE / c.total_size) = 0 ∨ c.free_list.isEmpty = true
  · rw [reclaimClass_skip c hskip, reclaimClass_skip c hskip]
  · push_neg at hskip
    obtain ⟨h1, h2, h3, h4⟩ := hskip
    rw [reclaimClass_go c (not_le.mpr h1) h2 h3 (by simpa using h4)]
    apply reclaimClass_skip
    show (c.free_count - (c.free_count - RESERVE_BLOCK_COUNT) / (PAGE_SIZE / c.total_size) *
        (PAGE_SIZE / c.total_size)) ≤ RESERVE_BLOCK_COUNT ∨
      PAGE_SIZE / c.total_size = 0 ∨
      ((c.free_count - (c.free_count - RESERVE_BLOCK_COUNT) / (PAGE_SIZE / c.total_size) *
          (PAGE_SIZE / c.total_size)) - RESERVE_BLOCK_COUNT) / (PAGE_SIZE / c.total_size) *
        (PAGE_SIZE / c.total_size) = 0 ∨ _
    have hdm := Nat.div_add_mod' (c.free_count - RESERVE_BLOCK_COUNT) (PAGE_SIZE / c.total_size)
    have hmod := Nat.mod_lt (c.free_count - RESERVE_BLOCK_COUNT)
      (Nat.pos_of_ne_zero h2)
    by_cases hsmall : c.free_count - (c.free_count - RESERVE_BLOCK_COUNT) /
        (PAGE_SIZE / c.total_size) * (PAGE_SIZE / c.total_size) ≤ RESERVE_BLOCK_COUNT
    · exact Or.inl hsmall
    · refine Or.inr (Or.inr (Or.inl ?_))
      have hnew : (c.free_count - (c.free_count - RESERVE_BLOCK_COUNT) /
          (PAGE_SIZE / c.total_size) * (PAGE_SIZE / c.total_size) - RESERVE_BLOCK_COUNT) /
          (PAGE_SIZE / c.total_size) = 0 := by
        apply (Nat.div_eq_zero_iff (by omega)).mpr
        omega
      rw [hnew, Nat.zero_mul]

/-! ### reclaimGo and reclaimIdleMemory lemmas -/

theorem totalReleased_nil : totalReleased [] = 0 := rfl

theorem totalReleased_cons (c : SizeClass) (cs : List SizeClass) :
    totalReleased (c :: cs) = (reclaimClass c).1 + totalReleased cs := by
  simp [totalReleased]

theorem totalReleased_le_poolSum (cs : List SizeClass) :
    totalReleased cs ≤ poolSum cs := by
  induction cs with
  | nil => simp [totalReleased_nil, poolSum_nil]
  | cons c cs ih =>
    rw [totalReleased_cons, poolSum_cons]
    have := reclaimClass_rel_le c
    omega

theorem poolSum_reclaim_map (cs : List SizeClass) :
    poolSum (cs.map (fun c => (reclaimClass c).2)) + totalReleased cs = poolSum cs := by
  induction cs with
  | nil => simp [totalReleased_nil, poolSum_nil, poolSum]
  | cons c cs ih =>
    rw [totalReleased_cons, List.map_cons, poolSum_cons, poolSum_cons]
    have := reclaimClass_account c
    omega

theorem reclaimGo_classes (cs : List SizeClass) (tf acc : Nat) :
    (reclaimGo cs tf acc).1 = cs.map (fun c => (reclaimClass c).2) := by
  induction cs generalizing tf acc with
  | nil => rfl
  | cons c cs ih => simp [reclaimGo, ih]

theorem reclaimGo_acc (cs : List SizeClass) (tf acc : Nat) :
    (reclaimGo cs tf acc).2.2 = acc + totalReleased cs := by
  induction cs generalizing tf acc with
  | nil => simp [reclaimGo, totalReleased_nil]
  | cons c cs ih =>
    rw [totalReleased_cons]
    show (reclaimGo cs (tf - (reclaimClass c).1) (acc + (reclaimClass c).1)).2.2 =
      acc + ((reclaimClass c).1 + totalReleased cs)
    rw [ih]
    omega

theorem reclaimGo_tf (cs : List SizeClass) (tf acc : Nat)
    (h : totalReleased cs ≤ tf) :
    (reclaimGo cs tf acc).2.1 = tf - totalReleased cs := by
  induction cs generalizing tf acc with
  | nil => simp [reclaimGo, totalReleased_nil]
  | cons c cs ih =>
    rw [totalReleased_cons] at h ⊢
    show (reclaimGo cs (tf - (reclaimClass c).1) (acc + (reclaimClass c).1)).2.1 =
      tf - ((reclaimClass c).1 + totalReleased cs)
    rw [ih _ _ (by omega)]
    omega

theorem reclaim_classes (P : BaseMemoryPool) :
    ((P.reclaimIdleMemory).2).classes = P.classes.map (fun c => (reclaimClass c).2) := by
  show (reclaimGo P.classes P.total_free_memory_ 0).1 = _
  exact reclaimGo_classes _ _ _

theorem reclaim_counters (P : BaseMemoryPool) :
    ((P.reclaimIdleMemory).2).allocate_count_ = P.allocate_count_ ∧
    ((P.reclaimIdleMemory).2).deallocate_count_ = P.deallocate_count_ ∧
    ((P.reclaimIdleMemory).2).total_allocated_memory_ = P.total_allocated_memory_ ∧
    ((P.reclaimIdleMemory).2).next_page_ = P.next_page_ :=
  ⟨rfl, rfl, rfl, rfl⟩

theorem reclaim_tf (P : BaseMemoryPool) (h : totalReleased P.classes ≤ P.total_free_memory_) :
    ((P.reclaimIdleMemory).2).total_free_memory_ =
      P.total_free_memory_ - totalReleased P.classes := by
  show (reclaimGo P.classes P.total_free_memory_ 0).2.1 = _
  exact reclaimGo_tf _ _ _ h

theorem reclaim_fst (P : BaseMemoryPool) :
    (P.reclaimIdleMemory).1 = totalReleased P.classes := by
  show (reclaimGo P.classes P.total_free_memory_ 0).2.2 = _
  rw [reclaimGo_acc]
  omega

theorem reclaim_poolInv (P : BaseMemoryPool) (h : PoolInv P) :
    PoolInv ((P.reclaimIdleMemory).2) := by
  obtain ⟨hA, hS, hL⟩ := h
  have htot : totalReleased P.classes ≤ P.total_free_memory_ := by
    have h1 := totalReleased_le_poolSum P.classes
    have h2 : poolSum P.classes = P.total_free_memory_ := hS
    omega
  refine ⟨?_, ?_, ?_⟩
  · rw [AllSizes, reclaim_classes]
    intro c' hc'
    obtain ⟨c, hc, rfl⟩ := List.mem_map.mp hc'
    intro b hb
    rw [reclaimClass_total_size c]
    exact hA c hc b (reclaimClass_mem_free_list c b hb)
  · show poolSum ((P.reclaimIdleMemory).2).classes = ((P.reclaimIdleMemory).2).total_free_memory_
    rw [reclaim_classes, reclaim_tf P htot]
    have h1 := poolSum_reclaim_map P.classes
    have h2 : poolSum P.classes = P.total_free_memory_ := hS
    omega
  · rw [LenLe, reclaim_classes]
    intro c' hc'
    obtain ⟨c, hc, rfl⟩ := List.mem_map.mp hc'
    exact reclaimClass_lenLe c (hL c hc)

theorem reclaim_ladder (P : BaseMemoryPool) (h : Ladder P) :
    Ladder ((P.reclaimIdleMemory).2) := by
  rw [Ladder, block_sizes_, reclaim_classes, List.map_map]
  have hfun : ((fun c => c.total_size) ∘ fun c => (reclaimClass c).2) =
      fun (c : SizeClass) => c.total_size := by
    funext c
    exact reclaimClass_total_size c
  rw [hfun]
  exact h

theorem reclaim_deltaLe1 (P : BaseMemoryPool) (h : DeltaLe1 P) :
    DeltaLe1 ((P.reclaimIdleMemory).2) := by
  rw [DeltaLe1, reclaim_classes]
  intro c' hc'
  obtain ⟨c, hc, rfl⟩ := List.mem_map.mp hc'
  exact reclaimClass_deltaLe1 c (h c hc)

theorem reclaimGo_noop (cs : List SizeClass) (tf acc : Nat)
    (h : ∀ c ∈ cs, reclaimClass c = (0, c)) :
    reclaimGo cs tf acc = (cs, tf, acc) := by
  induction cs generalizing tf acc with
  | nil => rfl
  | cons c cs ih =>
    have hc := h c (by simp)
    show (let rc := reclaimClass c
      let rest := reclaimGo cs (tf - rc.1) (acc + rc.1)
      (rc.2 :: rest.1, rest.2)) = (c :: cs, tf, acc)
    rw [hc]
    simp only []
    rw [ih _ _ (fun c' hc' => h c' (List.mem_cons_of_mem _ hc'))]
    simp

theorem reclaim_noop_of (Q : BaseMemoryPool)
    (h : ∀ c ∈ Q.classes, reclaimClass c = (0, c)) :
    Q.reclaimIdleMemory = (0, Q) := by
  show (let r := reclaimGo Q.classes Q.total_free_memory_ 0
    (r.2.2, { Q with classes := r.1, total_free_memory_ := r.2.1 })) = (0, Q)
  rw [reclaimGo_noop Q.classes Q.total_free_memory_ 0 h]

theorem reclaim_idem (P : BaseMemoryPool) :
    ((P.reclaimIdleMemory).2).reclaimIdleMemory = (0, (P.reclaimIdleMemory).2) := by
  apply reclaim_noop_of
  rw [reclaim_classes]
  intro c' hc'
  obtain ⟨c, hc, rfl⟩ := List.mem_map.mp hc'
  exact reclaimClass_idem c

theorem mem_ladderFrom (s n x : Nat) (h : x ∈ ladderFrom s n) :
    ∃ j, j < n ∧ x = s + 8 * j := by
  induction n generalizing s with
  | zero => simp [ladderFrom] at h
  | succ m ih =>
    rcases List.mem_cons.mp h with rfl | h'
    · exact ⟨0, by omega, by omega⟩
    · obtain ⟨j, hj, rfl⟩ := ih (s + 8) h'
      exact ⟨j + 1, by omega, by omega⟩

theorem seeded_bounds (x : Nat) (h : x ∈ seededSizes) : 24 ≤ x ∧ x ≤ 2064 := by
  obtain ⟨j, hj, rfl⟩ := mem_ladderFrom 24 256 x h
  omega

theorem poolSum_le_bound (cs : List SizeClass)
    (h : ∀ c ∈ cs, c.free_count ≤ 3 + PAGE_SIZE / c.total_size) :
    poolSum cs ≤
      (cs.map (fun c => c.total_size * (3 + PAGE_SIZE / c.total_size))).sum := by
  induction cs with
  | nil => simp [poolSum_nil]
  | cons c cs ih =>
    rw [poolSum_cons, List.map_cons, List.sum_cons]
    have h1 := Nat.mul_le_mul_left c.total_size (h c (by simp))
    have h2 := ih (fun c' hc' => h c' (List.mem_cons_of_mem _ hc'))
    omega

theorem reclaim_bound (P : BaseMemoryPool) (hLad : Ladder P)
    (hS : SumInv P) (hd : DeltaLe1 P) :
    ((P.reclaimIdleMemory).2).total_free_memory_ ≤ reclaimKeepBound := by
  have hmemsz : ∀ c ∈ P.classes, c.total_size ∈ seededSizes := by
    intro c hc
    rw [← hLad]
    exact List.mem_map_of_mem _ hc
  have htot : totalReleased P.classes ≤ P.total_free_memory_ := by
    have h1 := totalReleased_le_poolSum P.classes
    have h2 : poolSum P.classes = P.total_free_memory_ := hS
    omega
  rw [reclaim_tf P htot]
  have h1 := poolSum_reclaim_map P.classes
  have h2 : poolSum P.classes = P.total_free_memory_ := hS
  have h3 : poolSum (P.classes.map (fun c => (reclaimClass c).2)) ≤ reclaimKeepBound := by
    have hcb : ∀ c' ∈ P.classes.map (fun c => (reclaimClass c).2),
        c'.free_count ≤ 3 + PAGE_SIZE / c'.total_size := by
      intro c' hc'
      obtain ⟨c, hc, rfl⟩ := List.mem_map.mp hc'
      obtain ⟨hlo, hhi⟩ := seeded_bounds c.total_size (hmemsz c hc)
      rw [reclaimClass_total_size c]
      exact reclaimClass_count_bound c (by omega)
        (by show c.total_size ≤ PAGE_SIZE; show c.total_size ≤ 4096; omega) (hd c hc)
    have hb := poolSum_le_bound _ hcb
    have heq : ((P.classes.map (fun c => (reclaimClass c).2)).map
        (fun c => c.total_size * (3 + PAGE_SIZE / c.total_size))).sum = reclaimKeepBound := by
      rw [List.map_map]
      have hfun : ((fun c => c.total_size * (3 + PAGE_SIZE / c.total_size)) ∘
          fun c => (reclaimClass c).2) =
          fun (c : SizeClass) => c.total_size * (3 + PAGE_SIZE / c.total_size) := by
        funext c
        simp only [Function.comp_apply]
        rw [reclaimClass_total_size c]
      rw [hfun, reclaimKeepBound, ← hLad, block_sizes_, List.map_map]
      rfl
    rw [heq] at hb
    exact hb
  omega

set_option maxRecDepth 4096 in
theorem reclaimKeepBound_le : reclaimKeepBound ≤ MAX_GLOBAL_FREE_MEMORY := by decide

/-! ### transferClass and transferGo lemmas -/

theorem locateIndex_ladder (P : BaseMemoryPool) (hL : Ladder P) (j : Nat)
    (hj : j < 256) : P.locateIndex (24 + 8 * j) = (j, P) :=
  locateIndex_found P _ j (findBlockSizeIndex_ladder P hL j hj)

theorem transferClass_skip (s d : BaseMemoryPool) (i : Nat)
    (h : (s.classAt i).free_list = []) : transferClass s d i = (s, d) := by
  simp [transferClass, h]

theorem transferClass_in_range (s : BaseMemoryPool) (i : Nat)
    (h : (s.classAt i).free_list ≠ []) : i < s.classes.length := by
  by_contra hout
  apply h
  show (s.classes.getD i defaultClass).free_list = []
  rw [List.getD_eq_default]
  · rfl
  · omega

theorem transferClass_go (s d : BaseMemoryPool) (i : Nat)
    (hne : ¬ (s.classAt i).free_list = []) :
    transferClass s d i =
      ({ s with
         classes := updateAt s.classes i (fun c =>
           { c with free_list := [], free_count := 0 }),
         total_free_memory_ := s.total_free_memory_ -
           (s.classAt i).total_size * (s.classAt i).free_count },
       { (d.locateIndex (s.classAt i).total_size).2 with
         classes := updateAt (d.locateIndex (s.classAt i).total_size).2.classes
           (d.locateIndex (s.classAt i).total_size).1 (fun c =>
             { c with free_list := (s.classAt i).free_list ++ c.free_list,
                      free_count := c.free_count + (s.classAt i).free_count }),
         total_free_memory_ :=
           (d.locateIndex (s.classAt i).total_size).2.total_free_memory_ +
             (s.classAt i).total_size * (s.classAt i).free_count }) := by
  have hne' : ¬ (s.classAt i).free_list.isEmpty = true := by
    simpa [List.isEmpty_iff] using hne
  simp only [transferClass, if_neg hne']

theorem transferClass_poolInv (s d : BaseMemoryPool) (i : Nat)
    (hs : PoolInv s) (hd : PoolInv d) :
    PoolInv (transferClass s d i).1 ∧ PoolInv (transferClass s d i).2 := by
  by_cases hne : (s.classAt i).free_list = []
  · rw [transferClass_skip s d i hne]
    exact ⟨hs, hd⟩
  · rw [transferClass_go s d i hne]
    have hi := transferClass_in_range s i hne
    obtain ⟨hsA, hsS, hsL⟩ := hs
    obtain ⟨hjlt, hjsz⟩ := locateIndex_classAt d (s.classAt i).total_size
    obtain ⟨hdA, hdS, hdL⟩ := locateIndex_poolInv d (s.classAt i).total_size hd
    have hsmem : s.classes.getD i defaultClass ∈ s.classes :=
      getD_eq_of_mem_getD _ _ _ hi
    constructor
    · refine ⟨?_, ?_, ?_⟩
      · exact pred_mem_updateAt _ _ _ _ hsA (fun _ => by intro b hb; simp at hb)
      · have hps := poolSum_updateAt_f s.classes i
          (fun c => { c with free_list := [], free_count := 0 }) hi rfl
        have hps' : poolSum (updateAt s.classes i
            (fun c => { c with free_list := [], free_count := 0 })) +
            (s.classes.getD i defaultClass).total_size *
              (s.classes.getD i defaultClass).free_count =
            poolSum s.classes +
            (s.classes.getD i defaultClass).total_size * 0 := hps
        have hge := poolSum_ge_getD s.classes i hi
        have hS' : poolSum s.classes = s.total_free_memory_ := hsS
        show poolSum (updateAt s.classes i
            (fun c => { c with free_list := [], free_count := 0 })) =
          s.total_free_memory_ -
            (s.classAt i).total_size * (s.classAt i).free_count
        have hca : (s.classAt i).total_size * (s.classAt i).free_count =
            (s.classes.getD i defaultClass).total_size *
              (s.classes.getD i defaultClass).free_count := rfl
        rw [hca]
        omega
      · exact pred_mem_updateAt _ _ _ _ hsL (fun _ => by simp)
    · refine ⟨?_, ?_, ?_⟩
      · refine pred_mem_updateAt _ _ _ _ hdA ?_
        intro _ b hb
        rcases List.mem_append.mp hb with hbL | hbR
        · have h1 : b.size = (s.classAt i).total_size := hsA _ hsmem b hbL
          exact h1.trans hjsz.symm
        · exact hdA _ (getD_eq_of_mem_getD _ _ _ hjlt) b hbR
      · have hps := poolSum_updateAt_f
          (d.locateIndex (s.classAt i).total_size).2.classes
          (d.locateIndex (s.classAt i).total_size).1
          (fun c => { c with
            free_list := (s.classAt i).free_list ++ c.free_list,
            free_count := c.free_count + (s.classAt i).free_count }) hjlt rfl
        set dl := (d.locateIndex (s.classAt i).total_size).2 with hdl
        set j := (d.locateIndex (s.classAt i).total_size).1 with hj
        have hps' : poolSum (updateAt dl.classes j
            (fun c => { c with
              free_list := (s.classAt i).free_list ++ c.free_list,
              free_count := c.free_count + (s.classAt i).free_count })) +
            (dl.classes.getD j defaultClass).total_size *
              (dl.classes.getD j defaultClass).free_count =
            poolSum dl.classes +
            (dl.classes.getD j defaultClass).total_size *
              ((dl.classes.getD j defaultClass).free_count + (s.classAt i).free_count) := hps
        have hexp : (dl.classes.getD j defaultClass).total_size *
            ((dl.classes.getD j defaultClass).free_count + (s.classAt i).free_count) =
            (dl.classes.getD j defaultClass).total_size *
              (dl.classes.getD j defaultClass).free_count +
            (dl.classes.getD j defaultClass).total_size * (s.classAt i).free_count := by
          ring
        have hjs : (dl.classes.getD j defaultClass).total_size =
            (s.classAt i).total_size := hjsz
        have hS' : poolSum dl.classes = dl.total_free_memory_ := hdS
        show poolSum (updateAt dl.classes j
            (fun c => { c with
              free_list := (s.classAt i).free_list ++ c.free_list,
              free_count := c.free_count + (s.classAt i).free_count })) =
          dl.total_free_memory_ +
            (s.classAt i).total_size * (s.classAt i).free_count
        rw [hjs] at hps' hexp
        omega
      · refine pred_mem_updateAt _ _ _ _ hdL ?_
        intro _
        show ((s.classAt i).free_list ++
            ((d.locateIndex (s.classAt i).total_size).2.classes.getD
              (d.locateIndex (s.classAt i).total_size).1 defaultClass).free_list).length ≤
          ((d.locateIndex (s.classAt i).total_size).2.classes.getD
            (d.locateIndex (s.classAt i).total_size).1 defaultClass).free_count +
            (s.classAt i).free_count
        rw [List.length_append]
        have h1 := hsL _ hsmem
        have h2 := hdL ((d.locateIndex (s.classAt i).total_size).2.classes.getD
            (d.locateIndex (s.classAt i).total_size).1 defaultClass)
          (getD_eq_of_mem_getD ((d.locateIndex (s.classAt i).total_size).2.classes)
            ((d.locateIndex (s.classAt i).total_size).1) defaultClass hjlt)
        have h3 : (s.classAt i).free_list.length ≤ (s.classAt i).free_count := h1
        omega

theorem transferGo_poolInv (is : List Nat) (s d : BaseMemoryPool)
    (hs : PoolInv s) (hd : PoolInv d) :
    PoolInv (transferGo s d is).1 ∧ PoolInv (transferGo s d is).2 := by
  induction is generalizing s d with
  | nil => exact ⟨hs, hd⟩
  | cons i is ih =>
    obtain ⟨h1, h2⟩ := transferClass_poolInv s d i hs hd
    exact ih _ _ h1 h2

theorem transferTo_poolInv (s d : BaseMemoryPool)
    (hs : PoolInv s) (hd : PoolInv d) :
    PoolInv (s.transferTo d).1 ∧ PoolInv (s.transferTo d).2 :=
  transferGo_poolInv _ s d hs hd

/-! ### transferTo: ladder specification -/

theorem transferClass_go_ladder (s d : BaseMemoryPool) (i : Nat) (hi : i < 256)
    (hLs : Ladder s) (hLd : Ladder d)
    (hne : ¬ (s.classAt i).free_list = []) :
    transferClass s d i =
      ({ s with
         classes := updateAt s.classes i (fun c =>
           { c with free_list := [], free_count := 0 }),
         total_free_memory_ := s.total_free_memory_ -
           (s.classAt i).total_size * (s.classAt i).free_count },
       { d with
         classes := updateAt d.classes i (fun c =>
           { c with free_list := (s.classAt i).free_list ++ c.free_list,
                    free_count := c.free_count + (s.classAt i).free_count }),
         total_free_memory_ := d.total_free_memory_ +
           (s.classAt i).total_size * (s.classAt i).free_count }) := by
  rw [transferClass_go s d i hne]
  have hloc : d.locateIndex (s.classAt i).total_size = (i, d) := by
    rw [ladder_classAt_size s hLs i hi]
    exact locateIndex_ladder d hLd i hi
  rw [hloc]

theorem locateIndex_deltaLe1 (P : BaseMemoryPool) (ts : Nat)
    (h : DeltaLe1 P) : DeltaLe1 ((P.locateIndex ts).2) := by
  match hf : P.findBlockSizeIndex ts with
  | some i => rw [locateIndex_found P ts i hf]; exact h
  | none =>
    simp only [locateIndex, hf, addBlockSizeIfNotExist]
    exact pred_mem_insertAt _ _ _ _ h (by simp)

theorem transferClass_deltaLe1 (s d : BaseMemoryPool) (i : Nat)
    (hs : LenEq s) (hd : DeltaLe1 d) :
    LenEq (transferClass s d i).1 ∧ DeltaLe1 (transferClass s d i).2 := by
  by_cases hne : (s.classAt i).free_list = []
  · rw [transferClass_skip s d i hne]
    exact ⟨hs, hd⟩
  · rw [transferClass_go s d i hne]
    have hi := transferClass_in_range s i hne
    have hsmem : s.classes.getD i defaultClass ∈ s.classes :=
      getD_eq_of_mem_getD _ _ _ hi
    obtain ⟨hjlt, hjsz⟩ := locateIndex_classAt d (s.classAt i).total_size
    have hdl := locateIndex_deltaLe1 d (s.classAt i).total_size hd
    constructor
    · exact pred_mem_updateAt _ _ _ _ hs (fun _ => by simp)
    · refine pred_mem_updateAt _ _ _ _ hdl ?_
      intro _
      show ((d.locateIndex (s.classAt i).total_size).2.classes.getD
            (d.locateIndex (s.classAt i).total_size).1 defaultClass).free_count +
          (s.classAt i).free_count ≤
        ((s.classAt i).free_list ++
          ((d.locateIndex (s.classAt i).total_size).2.classes.getD
            (d.locateIndex (s.classAt i).total_size).1 defaultClass).free_list).length + 1
      rw [List.length_append]
      have h1 : (s.classAt i).free_count = (s.classAt i).free_list.length := hs _ hsmem
      have h2 := hdl ((d.locateIndex (s.classAt i).total_size).2.classes.getD
          (d.locateIndex (s.classAt i).total_size).1 defaultClass)
        (getD_eq_of_mem_getD ((d.locateIndex (s.classAt i).total_size).2.classes)
          ((d.locateIndex (s.classAt i).total_size).1) defaultClass hjlt)
      omega

theorem transferGo_deltaLe1 (is : List Nat) (s d : BaseMemoryPool)
    (hs : LenEq s) (hd : DeltaLe1 d) :
    LenEq (transferGo s d is).1 ∧ DeltaLe1 (transferGo s d is).2 := by
  induction is generalizing s d with
  | nil => exact ⟨hs, hd⟩
  | cons i is ih =>
    obtain ⟨h1, h2⟩ := transferClass_deltaLe1 s d i hs hd
    exact ih _ _ h1 h2

theorem transferGo_cons (s d : BaseMemoryPool) (i : Nat) (is : List Nat) :
    transferGo s d (i :: is) =
      transferGo (transferClass s d i).1 (transferClass s d i).2 is := rfl

theorem transferGo_ladder_spec (is : List Nat) (s d : BaseMemoryPool)
    (hLs : Ladder s) (hLd : Ladder d) (hS : SumInv s) (hE : LenEq s)
    (hb : ∀ i ∈ is, i < 256) :
    Ladder (transferGo s d is).1 ∧ Ladder (transferGo s d is).2 ∧
    SumInv (transferGo s d is).1 ∧ LenEq (transferGo s d is).1 ∧
    ((transferGo s d is).1.total_free_memory_ +
      (transferGo s d is).2.total_free_memory_ =
      s.total_free_memory_ + d.total_free_memory_) ∧
    (∀ k, k < 256 →
      (k ∈ is →
        ((transferGo s d is).1.classAt k).free_list = [] ∧
        ((transferGo s d is).1.classAt k).free_count = 0 ∧
        ((transferGo s d is).2.classAt k).free_list =
          (s.classAt k).free_list ++ (d.classAt k).free_list ∧
        ((transferGo s d is).2.classAt k).free_count =
          (d.classAt k).free_count + (s.classAt k).free_count) ∧
      (k ∉ is →
        (transferGo s d is).1.classAt k = s.classAt k ∧
        (transferGo s d is).2.classAt k = d.classAt k)) := by
  induction is generalizing s d with
  | nil =>
    refine ⟨hLs, hLd, hS, hE, rfl, ?_⟩
    intro k hk
    exact ⟨fun h => absurd h (List.not_mem_nil k), fun _ => ⟨rfl, rfl⟩⟩
  | cons i is ih =>
    have hi : i < 256 := hb i (by simp)
    have hi_len : i < s.classes.length := by
      rw [ladder_classes_length s hLs]; exact hi
    have hsmem : s.classes.getD i defaultClass ∈ s.classes :=
      getD_eq_of_mem_getD _ _ _ hi_len
    by_cases hne : (s.classAt i).free_list = []
    · rw [transferGo_cons, transferClass_skip s d i hne]
      obtain ⟨A1, A2, A3, A4, A5, A6⟩ :=
        ih s d hLs hLd hS hE (fun j hj => hb j (List.mem_cons_of_mem _ hj))
      refine ⟨A1, A2, A3, A4, A5, ?_⟩
      intro k hk
      constructor
      · intro hkmem
        by_cases hks : k ∈ is
        · exact (A6 k hk).1 hks
        · have hkeq : k = i := by
            rcases List.mem_cons.mp hkmem with h | h
            · exact h
            · exact absurd h hks
          subst hkeq
          obtain ⟨e1, e2⟩ := (A6 k hk).2 hks
          have hcnt0 : (s.classAt k).free_count = 0 := by
            have h9 := hE _ hsmem
            have hnil : (s.classes.getD k defaultClass).free_list = [] := hne
            rw [hnil] at h9
            simpa only [List.length_nil] using h9
          refine ⟨?_, ?_, ?_, ?_⟩
          · rw [e1]; exact hne
          · rw [e1]; exact hcnt0
          · rw [e2, hne]; rfl
          · rw [e2, hcnt0]
            omega
      · intro hknot
        exact (A6 k hk).2 (fun h => hknot (List.mem_cons_of_mem _ h))
    · rw [transferGo_cons, transferClass_go_ladder s d i hi hLs hLd hne]
      set x := (s.classAt i).total_size * (s.classAt i).free_count with hxdef
      set s1 : BaseMemoryPool := { s with
        classes := updateAt s.classes i (fun c =>
          { c with free_list := [], free_count := 0 }),
        total_free_memory_ := s.total_free_memory_ - x } with hs1def
      set d1 : BaseMemoryPool := { d with
        classes := updateAt d.classes i (fun c =>
          { c with free_list := (s.classAt i).free_list ++ c.free_list,
                   free_count := c.free_count + (s.classAt i).free_count }),
        total_free_memory_ := d.total_free_memory_ + x } with hd1def
      have hid_len : i < d.classes.length := by
        rw [ladder_classes_length d hLd]; exact hi
      have hx' : x = (s.classes.getD i defaultClass).total_size *
          (s.classes.getD i defaultClass).free_count := rfl
      have hge := poolSum_ge_getD s.classes i hi_len
      have hSs : poolSum s.classes = s.total_free_memory_ := hS
      have hs1_ne : ∀ k, k ≠ i → s1.classAt k = s.classAt k := by
        intro k hk
        show (updateAt s.classes i _).getD k defaultClass =
          s.classes.getD k defaultClass
        exact getD_updateAt_ne _ _ _ _ _ hk
      have hs1_i : s1.classAt i =
          { s.classAt i with free_list := [], free_count := 0 } := by
        show (updateAt s.classes i _).getD i defaultClass = _
        rw [getD_updateAt_self _ _ _ _ hi_len]
        rfl
      have hd1_ne : ∀ k, k ≠ i → d1.classAt k = d.classAt k := by
        intro k hk
        show (updateAt d.classes i _).getD k defaultClass =
          d.classes.getD k defaultClass
        exact getD_updateAt_ne _ _ _ _ _ hk
      have hd1_i : d1.classAt i =
          { d.classAt i with
            free_list := (s.classAt i).free_list ++ (d.classAt i).free_list,
            free_count := (d.classAt i).free_count + (s.classAt i).free_count } := by
        show (updateAt d.classes i _).getD i defaultClass = _
        rw [getD_updateAt_self _ _ _ _ hid_len]
        rfl
      have hLs1 : Ladder s1 := by
        show (updateAt s.classes i (fun c =>
          { c with free_list := [], free_count := 0 })).map (·.total_size) = seededSizes
        rw [map_updateAt_of_fix s.classes i
          (fun c => { c with free_list := [], free_count := 0 })
          (fun c => c.total_size) (fun c => rfl)]
        exact hLs
      have hLd1 : Ladder d1 := by
        show (updateAt d.classes i (fun c =>
          { c with free_list := (s.classAt i).free_list ++ c.free_list,
                   free_count := c.free_count + (s.classAt i).free_count })).map
          (·.total_size) = seededSizes
        have hfix := map_updateAt_of_fix d.classes i
          (fun c => { c with free_list := (s.classAt i).free_list ++ c.free_list, free_count := c.free_count + (s.classAt i).free_count })
          (fun c => c.total_size) (fun c => rfl)
        rw [hfix]
        exact hLd
      have hS1 : SumInv s1 := by
        have hps := poolSum_updateAt_f s.classes i
          (fun c => { c with free_list := [], free_count := 0 }) hi_len rfl
        have hps' : poolSum (updateAt s.classes i
            (fun c => { c with free_list := [], free_count := 0 })) +
            (s.classes.getD i defaultClass).total_size *
              (s.classes.getD i defaultClass).free_count =
            poolSum s.classes +
            (s.classes.getD i defaultClass).total_size * 0 := hps
        show poolSum (updateAt s.classes i
            (fun c => { c with free_list := [], free_count := 0 })) =
          s.total_free_memory_ - x
        omega
      have hE1 : LenEq s1 := by
        show ∀ c ∈ updateAt s.classes i _, c.free_count = c.free_list.length
        exact pred_mem_updateAt _ _ _ _ hE (fun _ => by simp)
      obtain ⟨A1, A2, A3, A4, A5, A6⟩ :=
        ih s1 d1 hLs1 hLd1 hS1 hE1 (fun j hj => hb j (List.mem_cons_of_mem _ hj))
      have hs1tf : s1.total_free_memory_ = s.total_free_memory_ - x := rfl
      have hd1tf : d1.total_free_memory_ = d.total_free_memory_ + x := rfl
      refine ⟨A1, A2, A3, A4, ?_, ?_⟩
      · rw [A5, hs1tf, hd1tf]
        omega
      · intro k hk
        constructor
        · intro hkmem
          by_cases hks : k ∈ is
          · obtain ⟨e1, e2, e3, e4⟩ := (A6 k hk).1 hks
            by_cases hkeq : k = i
            · subst hkeq
              refine ⟨e1, e2, ?_, ?_⟩
              · rw [e3, hs1_i, hd1_i]
                show [] ++ ((s.classAt k).free_list ++ (d.classAt k).free_list) = _
                simp
              · rw [e4, hs1_i, hd1_i]
                show (d.classAt k).free_count + (s.classAt k).free_count + 0 = _
                omega
            · refine ⟨e1, e2, ?_, ?_⟩
              · rw [e3, hs1_ne k hkeq, hd1_ne k hkeq]
              · rw [e4, hs1_ne k hkeq, hd1_ne k hkeq]
          · have hkeq : k = i := by
              rcases List.mem_cons.mp hkmem with h | h
              · exact h
              · exact absurd h hks
            subst hkeq
            obtain ⟨e1, e2⟩ := (A6 k hk).2 hks
            refine ⟨?_, ?_, ?_, ?_⟩
            · rw [e1, hs1_i]
            · rw [e1, hs1_i]
            · rw [e2, hd1_i]
            · rw [e2, hd1_i]
        · intro hknot
          have hkne : k ≠ i := fun h => hknot (h ▸ List.mem_cons_self i is)
          have hkns : k ∉ is := fun h => hknot (List.mem_cons_of_mem _ h)
          obtain ⟨e1, e2⟩ := (A6 k hk).2 hkns
          exact ⟨e1.trans (hs1_ne k hkne), e2.trans (hd1_ne k hkne)⟩

/-! ### transferTo wrapper and global pool lemmas -/

theorem transferTo_spec (src dest : BaseMemoryPool)
    (hLs : Ladder src) (hLd : Ladder dest) (hS : SumInv src) (hE : LenEq src) :
    Ladder (src.transferTo dest).1 ∧ Ladder (src.transferTo dest).2 ∧
    SumInv (src.transferTo dest).1 ∧ LenEq (src.transferTo dest).1 ∧
    ((src.transferTo dest).1.total_free_memory_ +
      (src.transferTo dest).2.total_free_memory_ =
      src.total_free_memory_ + dest.total_free_memory_) ∧
    (∀ k, k < 256 →
      ((src.transferTo dest).1.classAt k).free_list = [] ∧
      ((src.transferTo dest).1.classAt k).free_count = 0 ∧
      ((src.transferTo dest).2.classAt k).free_list =
        (src.classAt k).free_list ++ (dest.classAt k).free_list ∧
      ((src.transferTo dest).2.classAt k).free_count =
        (dest.classAt k).free_count + (src.classAt k).free_count) := by
  have hlen : src.classes.length = 256 := ladder_classes_length src hLs
  have hb : ∀ i ∈ List.range src.classes.length, i < 256 := by
    intro i hi
    rw [hlen] at hi
    exact List.mem_range.mp hi
  obtain ⟨A1, A2, A3, A4, A5, A6⟩ :=
    transferGo_ladder_spec (List.range src.classes.length) src dest hLs hLd hS hE hb
  refine ⟨A1, A2, A3, A4, A5, ?_⟩
  intro k hk
  have hkmem : k ∈ List.range src.classes.length := by
    rw [hlen]
    exact List.mem_range.mpr hk
  exact (A6 k hk).1 hkmem

theorem transferTo_src_empty (src dest : BaseMemoryPool)
    (hLs : Ladder src) (hLd : Ladder dest) (hS : SumInv src) (hE : LenEq src) :
    (src.transferTo dest).1.total_free_memory_ = 0 ∧
    (∀ c ∈ (src.transferTo dest).1.classes, c.free_list = [] ∧ c.free_count = 0) := by
  obtain ⟨A1, A2, A3, A4, A5, A6⟩ := transferTo_spec src dest hLs hLd hS hE
  have hlen1 : (src.transferTo dest).1.classes.length = 256 :=
    ladder_classes_length _ A1
  have hall : ∀ c ∈ (src.transferTo dest).1.classes,
      c.free_list = [] ∧ c.free_count = 0 := by
    apply forall_mem_of_forall_getD _ defaultClass
    intro i hi
    rw [hlen1] at hi
    exact ⟨(A6 i hi).1, (A6 i hi).2.1⟩
  refine ⟨?_, hall⟩
  have hzero : poolSum (src.transferTo dest).1.classes = 0 :=
    poolSum_eq_zero_of _ (fun c hc => (hall c hc).2)
  have hsum : poolSum (src.transferTo dest).1.classes =
      (src.transferTo dest).1.total_free_memory_ := A3
  omega

theorem transferGo_deltaLe1_range (src dest : BaseMemoryPool)
    (hE : LenEq src) (hD : DeltaLe1 dest) :
    DeltaLe1 (src.transferTo dest).2 :=
  (transferGo_deltaLe1 (List.range src.classes.length) src dest hE hD).2

theorem globalDeallocate_bound (g : GlobalMemoryPool)
    (hP : PoolInv g.pool_) (hL : Ladder g.pool_) (hD : DeltaLe1 g.pool_)
    (ptr : Option FreeBlock) :
    ((g.deallocate ptr).pool_).total_free_memory_ ≤ MAX_GLOBAL_FREE_MEMORY := by
  show (if MAX_GLOBAL_FREE_MEMORY <
      ((g.pool_.deallocate ptr).2).getStats.total_free_memory then
      (⟨((g.pool_.deallocate ptr).2.reclaimIdleMemory).2⟩ : GlobalMemoryPool)
    else ⟨(g.pool_.deallocate ptr).2⟩).pool_.total_free_memory_ ≤
    MAX_GLOBAL_FREE_MEMORY
  by_cases hover : MAX_GLOBAL_FREE_MEMORY <
      ((g.pool_.deallocate ptr).2).getStats.total_free_memory
  · rw [if_pos hover]
    obtain ⟨_, hS1, _⟩ := deallocate_poolInv g.pool_ ptr hP
    have hL1 := deallocate_ladder g.pool_ ptr hL
    have hD1 := deallocate_deltaLe1 g.pool_ ptr hD
    have hb := reclaim_bound _ hL1 hS1 hD1
    have hk := reclaimKeepBound_le
    show ((g.pool_.deallocate ptr).2.reclaimIdleMemory).2.total_free_memory_ ≤
      MAX_GLOBAL_FREE_MEMORY
    omega
  · rw [if_neg hover]
    simpa [getStats] using not_lt.mp hover

theorem globalTransferFrom_bound (g : GlobalMemoryPool) (src : BaseMemoryPool)
    (hP : PoolInv g.pool_) (hL : Ladder g.pool_) (hD : DeltaLe1 g.pool_)
    (hPs : PoolInv src) (hLs : Ladder src) (hEs : LenEq src) :
    (((g.transferFrom src).2).pool_).total_free_memory_ ≤ MAX_GLOBAL_FREE_MEMORY := by
  show (if MAX_GLOBAL_FREE_MEMORY <
      ((src.transferTo g.pool_).2).getStats.total_free_memory then
      ((src.transferTo g.pool_).1,
        (⟨((src.transferTo g.pool_).2.reclaimIdleMemory).2⟩ : GlobalMemoryPool))
    else ((src.transferTo g.pool_).1,
      (⟨(src.transferTo g.pool_).2⟩ : GlobalMemoryPool))).2.pool_.total_free_memory_ ≤
    MAX_GLOBAL_FREE_MEMORY
  by_cases hover : MAX_GLOBAL_FREE_MEMORY <
      ((src.transferTo g.pool_).2).getStats.total_free_memory
  · rw [if_pos hover]
    obtain ⟨_, hS1, _⟩ := (transferTo_poolInv src g.pool_ hPs hP).2
    have hL1 := (transferTo_spec src g.pool_ hLs hL hPs.2.1 hEs).2.1
    have hD1 := transferGo_deltaLe1_range src g.pool_ hEs hD
    have hb := reclaim_bound _ hL1 hS1 hD1
    have hk := reclaimKeepBound_le
    show ((src.transferTo g.pool_).2.reclaimIdleMemory).2.total_free_memory_ ≤
      MAX_GLOBAL_FREE_MEMORY
    omega
  · rw [if_neg hover]
    simpa [getStats] using not_lt.mp hover

/-! ### fresh pool facts -/

set_option maxRecDepth 8192 in
theorem freshPool_eq_seeded : freshPool = seededPool := by decide

set_option maxRecDepth 4096 in
theorem freshPool_poolInv : PoolInv freshPool := by
  rw [freshPool_eq_seeded]
  unfold PoolInv AllSizes SumInv LenLe
  decide

set_option maxRecDepth 4096 in
theorem freshPool_ladder : Ladder freshPool := by
  rw [freshPool_eq_seeded]
  unfold Ladder
  decide

set_option maxRecDepth 4096 in
theorem freshPool_deltaLe1 : DeltaLe1 freshPool := by
  rw [freshPool_eq_seeded]
  unfold DeltaLe1
  decide

set_option maxRecDepth 4096 in
theorem freshPool_lenEq : LenEq freshPool := by
  rw [freshPool_eq_seeded]
  unfold LenEq
  decide

/-! ### Invariance along operation sequences -/

mutual

theorem stepOp_poolInv (op : PoolOp) (P : BaseMemoryPool) (h : PoolInv P) :
    PoolInv (stepOp P op) := by
  match op with
  | .alloc u => exact allocate_poolInv P u h
  | .dealloc ptr => exact deallocate_poolInv P ptr h
  | .reclaim => exact reclaim_poolInv P h
  | .transferOut => exact (transferTo_poolInv P freshPool h freshPool_poolInv).1
  | .transferIn sp =>
    exact (transferTo_poolInv (runOps freshPool sp) P
      (runOps_poolInv sp freshPool freshPool_poolInv) h).2

theorem runOps_poolInv (ops : List PoolOp) (P : BaseMemoryPool) (h : PoolInv P) :
    PoolInv (runOps P ops) := by
  match ops with
  | [] => exact h
  | op :: ops => exact runOps_poolInv ops (stepOp P op) (stepOp_poolInv op P h)

end

theorem zip_mul_sum (cs : List SizeClass) :
    (List.zipWith (fun a b => a * b) (cs.map (·.total_size))
      (cs.map (·.free_count))).sum = poolSum cs := by
  induction cs with
  | nil => rfl
  | cons c cs ih =>
    rw [List.map_cons, List.map_cons, List.zipWith_cons_cons, List.sum_cons, ih, poolSum_cons]

/-! ### Claim theorems -/

/-- C1: BaseMemoryPool::allocate returns null for user_size > MAX_USER_SIZE;
a user_size of 0 is treated as MIN_USER_SIZE inside calcAlignedTotalSize
(otherwise the total is align_up(user_size + header, BLOCK_ALIGNMENT)); and
on success the result comes from popping the head block b of the located
class (restocked by allocateBatch when empty): the class's freelist loses
its head, its free_count drops by one, total_free_memory_ drops by the
popped block's stored total size, allocate_count_ rises by one, and the
returned pointer is the block address plus FREE_BLOCK_HEADER_SIZE. -/
theorem C1_allocate_contract (P : BaseMemoryPool) (user_size : Nat) :
    (MAX_USER_SIZE < user_size → P.allocate user_size = (none, P)) ∧
    (user_size = 0 →
      calcAlignedTotalSize user_size = calcAlignedTotalSize MIN_USER_SIZE) ∧
    (0 < user_size →
      calcAlignedTotalSize user_size =
        alignUp (user_size + FREE_BLOCK_HEADER_SIZE) BLOCK_ALIGNMENT) ∧
    (∀ p P', P.allocate user_size = (some p, P') →
      user_size ≤ MAX_USER_SIZE ∧
      ∃ P2 b rest,
        stockClass (P.locateIndex (calcAlignedTotalSize user_size)).2
          (calcAlignedTotalSize user_size)
          (P.locateIndex (calcAlignedTotalSize user_size)).1 = some P2 ∧
        (P2.classAt (P.locateIndex (calcAlignedTotalSize user_size)).1).total_size =
          calcAlignedTotalSize user_size ∧
        (P2.classAt (P.locateIndex (calcAlignedTotalSize user_size)).1).free_list =
          b :: rest ∧
        (P'.classAt (P.locateIndex (calcAlignedTotalSize user_size)).1).free_list =
          rest ∧
        (P'.classAt (P.locateIndex (calcAlignedTotalSize user_size)).1).free_count =
          (P2.classAt (P.locateIndex (calcAlignedTotalSize user_size)).1).free_count - 1 ∧
        P'.total_free_memory_ = P2.total_free_memory_ - b.size ∧
        P'.allocate_count_ = P.allocate_count_ + 1 ∧
        p = b.addr + FREE_BLOCK_HEADER_SIZE) := by
  refine ⟨?_, ?_, ?_, ?_⟩
  · intro hbig
    simp [allocate, hbig]
  · intro h0
    subst h0
    rfl
  · intro hpos
    have hne : user_size ≠ 0 := by omega
    simp [calcAlignedTotalSize, hne]
  · intro p P' hP'
    by_cases hbig : MAX_USER_SIZE < user_size
    · simp [allocate, hbig] at hP'
    simp only [allocate, if_neg hbig] at hP'
    refine ⟨by omega, ?_⟩
    obtain ⟨hlt, hsz⟩ := locateIndex_classAt P (calcAlignedTotalSize user_size)
    match hstock : stockClass (P.locateIndex (calcAlignedTotalSize user_size)).2
        (calcAlignedTotalSize user_size)
        (P.locateIndex (calcAlignedTotalSize user_size)).1 with
    | none =>
      rw [hstock] at hP'
      simp at hP'
    | some P2 =>
      rw [hstock] at hP'
      obtain ⟨hsz2, hlt2⟩ := stockClass_classAt_size _ _ _ hlt hsz P2 hstock
      match hl : (P2.classAt (P.locateIndex (calcAlignedTotalSize user_size)).1).free_list with
      | [] =>
        simp only [popHead, hl] at hP'
        simp at hP'
      | b :: rest =>
        simp only [popHead, hl, Prod.mk.injEq, Option.some.injEq] at hP'
        obtain ⟨hp, hP'eq⟩ := hP'
        refine ⟨P2, b, rest, rfl, hsz2, hl, ?_, ?_, ?_, ?_, hp.symm⟩
        · rw [← hP'eq]
          show ((updateAt P2.classes _ _).getD _ defaultClass).free_list = rest
          rw [getD_updateAt_self _ _ _ _ hlt2]
        · rw [← hP'eq]
          show ((updateAt P2.classes _ _).getD _ defaultClass).free_count =
            (P2.classes.getD _ defaultClass).free_count - 1
          rw [getD_updateAt_self _ _ _ _ hlt2]
        · rw [← hP'eq]
        · rw [← hP'eq]
          show P2.allocate_count_ + 1 = P.allocate_count_ + 1
          have h1 := (stockClass_counters _ _ _ P2 hstock).1
          have h2 := (locateIndex_counters P (calcAlignedTotalSize user_size)).1
          omega

set_option maxRecDepth 4096 in
/-- C1 witness: the contract applied at concrete inputs on a fresh pool:
2049 bytes exceeds MAX_USER_SIZE and yields null; a zero request aligns
like MIN_USER_SIZE; 15 bytes aligns by the align_up formula; 2048 bytes is
a successful pool allocation. -/
theorem C1_allocate_contract_witness :
    freshPool.allocate 2049 = (none, freshPool) ∧
    calcAlignedTotalSize 0 = calcAlignedTotalSize MIN_USER_SIZE ∧
    calcAlignedTotalSize 15 =
      alignUp (15 + FREE_BLOCK_HEADER_SIZE) BLOCK_ALIGNMENT ∧
    2048 ≤ MAX_USER_SIZE :=
  ⟨(C1_allocate_contract freshPool 2049).1 (by decide),
   (C1_allocate_contract freshPool 0).2.1 rfl,
   (C1_allocate_contract freshPool 15).2.2.1 (by decide),
   ((C1_allocate_contract freshPool 2048).2.2.2 4112
     (freshPool.allocate 2048).2 (by rw [freshPool_eq_seeded]; decide)).1⟩

/-- C2: BaseMemoryPool::deallocate is a no-op on null; when the header's
total_size is zero or below the smallest class total, or when no class
matches it, the block goes straight to the system allocator and no freelist
or counter of the pool changes; otherwise the block is pushed onto the
matching class's freelist head, free_count rises by one, total_free_memory_
rises by total_size, and deallocate_count_ rises by one. -/
theorem C2_deallocate_contract (P : BaseMemoryPool) (ptr : Option FreeBlock) :
    (ptr = none → P.deallocate ptr = (.nullNoop, P)) ∧
    (∀ b, ptr = some b →
      ((b.size = 0 ∨ b.size < calcAlignedTotalSize MIN_USER_SIZE) →
        P.deallocate ptr = (.systemFree, P)) ∧
      (¬ (b.size = 0 ∨ b.size < calcAlignedTotalSize MIN_USER_SIZE) →
        P.findBlockSizeIndex b.size = none →
        P.deallocate ptr = (.systemFree, P)) ∧
      (∀ idx, ¬ (b.size = 0 ∨ b.size < calcAlignedTotalSize MIN_USER_SIZE) →
        P.findBlockSizeIndex b.size = some idx →
        (P.deallocate ptr).1 = .pooled ∧
        ((P.deallocate ptr).2.classAt idx).free_list =
          b :: (P.classAt idx).free_list ∧
        ((P.deallocate ptr).2.classAt idx).free_count =
          (P.classAt idx).free_count + 1 ∧
        (P.deallocate ptr).2.total_free_memory_ =
          P.total_free_memory_ + b.size ∧
        (P.deallocate ptr).2.deallocate_count_ = P.deallocate_count_ + 1 ∧
        (P.deallocate ptr).2.allocate_count_ = P.allocate_count_)) := by
  refine ⟨?_, ?_⟩
  · intro h
    subst h
    rfl
  · intro b hb
    subst hb
    refine ⟨?_, ?_, ?_⟩
    · intro hsmall
      simp [deallocate, hsmall]
    · intro hsmall hfind
      simp [deallocate, hsmall, hfind]
    · intro idx hsmall hfind
      obtain ⟨hlt, _⟩ := findBlockSizeIndex_some P b.size idx hfind
      have heq : P.deallocate (some b) = (.pooled,
          { P with
            classes := updateAt P.classes idx (fun c =>
              { c with free_list := b :: c.free_list,
                       free_count := c.free_count + 1 }),
            total_free_memory_ := P.total_free_memory_ + b.size,
            deallocate_count_ := P.deallocate_count_ + 1 }) := by
        simp only [deallocate, if_neg hsmall, hfind]
      rw [heq]
      refine ⟨rfl, ?_, ?_, rfl, rfl, rfl⟩
      · show ((updateAt P.classes idx _).getD idx defaultClass).free_list =
          b :: (P.classes.getD idx defaultClass).free_list
        rw [getD_updateAt_self _ _ _ _ hlt]
      · show ((updateAt P.classes idx _).getD idx defaultClass).free_count =
          (P.classes.getD idx defaultClass).free_count + 1
        rw [getD_updateAt_self _ _ _ _ hlt]

set_option maxRecDepth 4096 in
/-- C2 witness: the contract applied on a fresh pool at a null pointer, at
a foreign block whose header reads 8 (below the minimum class total of 24),
at a block of total size 100 (no class matches), and at a genuine pool
block of total size 24 (class index 0). -/
theorem C2_deallocate_contract_witness :
    freshPool.deallocate none = (.nullNoop, freshPool) ∧
    freshPool.deallocate (some ⟨8, 4096⟩) = (.systemFree, freshPool) ∧
    freshPool.deallocate (some ⟨100, 4096⟩) = (.systemFree, freshPool) ∧
    (freshPool.deallocate (some ⟨24, 4096⟩)).1 = .pooled ∧
    ((freshPool.deallocate (some ⟨24, 4096⟩)).2.classAt 0).free_count =
      (freshPool.classAt 0).free_count + 1 :=
  ⟨(C2_deallocate_contract freshPool none).1 rfl,
   ((C2_deallocate_contract freshPool (some ⟨8, 4096⟩)).2 ⟨8, 4096⟩ rfl).1
     (by decide),
   (((C2_deallocate_contract freshPool (some ⟨100, 4096⟩)).2 ⟨100, 4096⟩ rfl).2.1
     (by decide) (by rw [freshPool_eq_seeded]; decide)),
   (((C2_deallocate_contract freshPool (some ⟨24, 4096⟩)).2 ⟨24, 4096⟩ rfl).2.2 0
     (by decide) (by rw [freshPool_eq_seeded]; decide)).1,
   (((C2_deallocate_contract freshPool (some ⟨24, 4096⟩)).2 ⟨24, 4096⟩ rfl).2.2 0
     (by decide) (by rw [freshPool_eq_seeded]; decide)).2.2.1⟩

/-- C10: MemoryManager::deallocate routes only to the calling thread's
local pool: for every pointer, the global pool (its freelists and all its
counters) is unchanged, and the local pool evolves exactly by
BaseMemoryPool::deallocate; GlobalMemoryPool::deallocate is not invoked on
this path. -/
theorem C10_facade_deallocate_frame (st : MemoryManagerState)
    (ptr : Option FreeBlock) :
    (MemoryManager.deallocate st ptr).global_pool_ = st.global_pool_ ∧
    (MemoryManager.deallocate st ptr).local_pool_.pool_ =
      (st.local_pool_.pool_.deallocate ptr).2 := by
  match ptr with
  | none => exact ⟨rfl, rfl⟩
  | some b => exact ⟨rfl, rfl⟩

set_option maxRecDepth 8192 in
/-- C3 (code bug): the spec requires every freelist's length to equal its
free_block_counts_ entry, but reclaimIdleMemory's pointer walk stops one
node short of the first released block: it frees release_count + 1 blocks
while subtracting only release_count from the counter.  After six
allocations and six deallocations of 2048-byte requests (class total 2064,
one block per page) the reclaim pass leaves free_block_counts_[255] = 4
while free_lists_[255] holds only 3 blocks. -/
theorem C3_reclaim_breaks_length_invariant :
    (runOps freshPool
      [.alloc 2048, .alloc 2048, .alloc 2048, .alloc 2048, .alloc 2048,
       .alloc 2048,
       .dealloc (some ⟨2064, 4096⟩), .dealloc (some ⟨2064, 8192⟩),
       .dealloc (some ⟨2064, 12288⟩), .dealloc (some ⟨2064, 16384⟩),
       .dealloc (some ⟨2064, 20480⟩), .dealloc (some ⟨2064, 24576⟩),
       .reclaim]).free_block_counts_.getD 255 0 = 4 ∧
    ((runOps freshPool
      [.alloc 2048, .alloc 2048, .alloc 2048, .alloc 2048, .alloc 2048,
       .alloc 2048,
       .dealloc (some ⟨2064, 4096⟩), .dealloc (some ⟨2064, 8192⟩),
       .dealloc (some ⟨2064, 12288⟩), .dealloc (some ⟨2064, 16384⟩),
       .dealloc (some ⟨2064, 20480⟩), .dealloc (some ⟨2064, 24576⟩),
       .reclaim]).free_lists_.getD 255 []).length = 3 := by
  rw [freshPool_eq_seeded]
  decide

/-- C4: after any sequence of pool operations starting from a freshly
constructed pool (allocate, which performs allocateBatch exactly as the
source invokes it; deallocate; reclaimIdleMemory; transfers out of and
into the pool, the donating pools being reachable from fresh pools
themselves), the sum over all classes of block_sizes_[k] times
free_block_counts_[k] equals total_free_memory_. -/
theorem C4_total_free_memory_sum_invariant (ops : List PoolOp) :
    (List.zipWith (fun a b => a * b) (runOps freshPool ops).block_sizes_
      (runOps freshPool ops).free_block_counts_).sum =
      (runOps freshPool ops).total_free_memory_ := by
  have h := (runOps_poolInv ops freshPool freshPool_poolInv).2.1
  rw [block_sizes_, free_block_counts_, zip_mul_sum]
  exact h

/-- C7: calling reclaimIdleMemory twice in immediate succession makes the
second call release 0 bytes and leave the pool bit-for-bit unchanged.  The
hypotheses restrict to pool states on which the source's walk is defined
(positive class sizes and counters exceeding list lengths by at most one,
true of every reachable pool); the reclaim pass leaves every class with
fewer than RESERVE_BLOCK_COUNT + blocks_per_page free blocks, so the second
pass finds nothing to release. -/
theorem C7_reclaim_idempotent (P : BaseMemoryPool)
    (hpos : ∀ c ∈ P.classes, 0 < c.total_size) (hd : DeltaLe1 P) :
    ((P.reclaimIdleMemory).2).reclaimIdleMemory = (0, (P.reclaimIdleMemory).2) :=
  reclaim_idem P

set_option maxRecDepth 8192 in
/-- C7 witness: the idempotence applied to the pool reached by six
2048-byte allocations followed by six deallocations (a state where the
first reclaim pass actually releases memory). -/
theorem C7_reclaim_idempotent_witness :
    (((runOps freshPool
      [.alloc 2048, .alloc 2048, .alloc 2048, .alloc 2048, .alloc 2048,
       .alloc 2048,
       .dealloc (some ⟨2064, 4096⟩), .dealloc (some ⟨2064, 8192⟩),
       .dealloc (some ⟨2064, 12288⟩), .dealloc (some ⟨2064, 16384⟩),
       .dealloc (some ⟨2064, 20480⟩), .dealloc (some ⟨2064, 24576⟩)]).reclaimIdleMemory).2).reclaimIdleMemory =
    (0, ((runOps freshPool
      [.alloc 2048, .alloc 2048, .alloc 2048, .alloc 2048, .alloc 2048,
       .alloc 2048,
       .dealloc (some ⟨2064, 4096⟩), .dealloc (some ⟨2064, 8192⟩),
       .dealloc (some ⟨2064, 12288⟩), .dealloc (some ⟨2064, 16384⟩),
       .dealloc (some ⟨2064, 20480⟩), .dealloc (some ⟨2064, 24576⟩)]).reclaimIdleMemory).2) :=
  C7_reclaim_idempotent _
    (by
      rw [freshPool_eq_seeded]
      unfold runOps
      decide)
    (by
      rw [freshPool_eq_seeded]
      unfold DeltaLe1
      decide)

/-- C5: after every return from GlobalMemoryPool::deallocate and from
GlobalMemoryPool::transferFrom, the global pool's free memory is at most
MAX_GLOBAL_FREE_MEMORY (10 MiB): each performs a reclaimIdleMemory pass
when the threshold is exceeded, and the per-class retention of
RESERVE_BLOCK_COUNT blocks rounded down to whole pages caps the retained
memory below the threshold.  The hypotheses are the standing invariants of
the global pool (seeded ladder, accounting identity, and counters within
one of the list lengths) and, for transferFrom, of the donating
thread-local pool (whose counters equal its list lengths). -/
theorem C5_global_free_memory_bounded (g : GlobalMemoryPool)
    (hP : PoolInv g.pool_) (hL : Ladder g.pool_) (hD : DeltaLe1 g.pool_) :
    (∀ ptr, ((g.deallocate ptr).pool_).getStats.total_free_memory ≤
      MAX_GLOBAL_FREE_MEMORY) ∧
    (∀ src : BaseMemoryPool, PoolInv src → Ladder src → LenEq src →
      (((g.transferFrom src).2).pool_).getStats.total_free_memory ≤
        MAX_GLOBAL_FREE_MEMORY) := by
  constructor
  · intro ptr
    exact globalDeallocate_bound g hP hL hD ptr
  · intro src hPs hLs hEs
    exact globalTransferFrom_bound g src hP hL hD hPs hLs hEs

set_option maxRecDepth 4096 in
/-- C5 witness: the bound applied to a fresh global pool, for a deallocate
of a pool block of total size 2064 and for a transferFrom of a fresh
thread-local pool. -/
theorem C5_global_free_memory_bounded_witness :
    (((GlobalMemoryPool.mk freshPool).deallocate (some ⟨2064, 4096⟩)).pool_).getStats.total_free_memory ≤
      MAX_GLOBAL_FREE_MEMORY ∧
    ((((GlobalMemoryPool.mk freshPool).transferFrom freshPool).2).pool_).getStats.total_free_memory ≤
      MAX_GLOBAL_FREE_MEMORY :=
  ⟨(C5_global_free_memory_bounded ⟨freshPool⟩ freshPool_poolInv freshPool_ladder
      freshPool_deltaLe1).1 (some ⟨2064, 4096⟩),
   (C5_global_free_memory_bounded ⟨freshPool⟩ freshPool_poolInv freshPool_ladder
      freshPool_deltaLe1).2 freshPool freshPool_poolInv freshPool_ladder
      freshPool_lenEq⟩

/-- C6: transferTo preserves the sum of the two pools' free memory, leaves
every source freelist empty with every source free_count zero (the source's
free memory dropping to zero), keeps every class present in the destination
(under the seeded ladder the class table of the destination already equals
the source's, so the dynamic-insertion branch never fires), and raises each
destination class's free_count by the source's free_count for that class. -/
theorem C6_transferTo_conservation (src dest : BaseMemoryPool)
    (hLs : Ladder src) (hLd : Ladder dest) (hS : SumInv src) (hE : LenEq src) :
    ((src.transferTo dest).1.total_free_memory_ +
      (src.transferTo dest).2.total_free_memory_ =
      src.total_free_memory_ + dest.total_free_memory_) ∧
    (src.transferTo dest).1.total_free_memory_ = 0 ∧
    (∀ c ∈ (src.transferTo dest).1.classes, c.free_list = [] ∧ c.free_count = 0) ∧
    (src.transferTo dest).2.block_sizes_ = src.block_sizes_ ∧
    (∀ k, k < 256 →
      ((src.transferTo dest).2.classAt k).free_count =
        (dest.classAt k).free_count + (src.classAt k).free_count) := by
  obtain ⟨A1, A2, A3, A4, A5, A6⟩ := transferTo_spec src dest hLs hLd hS hE
  obtain ⟨B1, B2⟩ := transferTo_src_empty src dest hLs hLd hS hE
  refine ⟨A5, B1, B2, ?_, ?_⟩
  · rw [A2, hLs]
  · intro k hk
    exact (A6 k hk).2.2.2

set_option maxRecDepth 8192 in
/-- C6 witness: conservation applied to a source pool holding one page of
24-byte blocks (170 blocks, 4080 free bytes) and a fresh destination. -/
theorem C6_transferTo_conservation_witness :
    (((runOps freshPool [.alloc 8, .dealloc (some ⟨24, 4096⟩)]).transferTo
        freshPool).1.total_free_memory_ +
      ((runOps freshPool [.alloc 8, .dealloc (some ⟨24, 4096⟩)]).transferTo
        freshPool).2.total_free_memory_ =
      (runOps freshPool [.alloc 8, .dealloc (some ⟨24, 4096⟩)]).total_free_memory_ +
        freshPool.total_free_memory_) ∧
    ((runOps freshPool [.alloc 8, .dealloc (some ⟨24, 4096⟩)]).transferTo
      freshPool).1.total_free_memory_ = 0 :=
  ⟨(C6_transferTo_conservation (runOps freshPool [.alloc 8, .dealloc (some ⟨24, 4096⟩)])
      freshPool (by rw [freshPool_eq_seeded]; unfold Ladder; decide) freshPool_ladder
      (by rw [freshPool_eq_seeded]; unfold SumInv; decide)
      (by rw [freshPool_eq_seeded]; unfold LenEq; decide)).1,
   (C6_transferTo_conservation (runOps freshPool [.alloc 8, .dealloc (some ⟨24, 4096⟩)])
      freshPool (by rw [freshPool_eq_seeded]; unfold Ladder; decide) freshPool_ladder
      (by rw [freshPool_eq_seeded]; unfold SumInv; decide)
      (by rw [freshPool_eq_seeded]; unfold LenEq; decide)).2.1⟩

set_option maxRecDepth 8192 in
/-- C8 counterexample: allocate(15) aligns to a total of 32, which is
already on the seeded ladder (class index 1), so no new size class is
inserted, and after returning the block the single nonempty freelist holds
128 blocks (one 4096-byte page sliced into 32-byte blocks, one popped and
then pushed back), not one block. -/
theorem C8_counterexample :
    calcAlignedTotalSize 15 = 32 ∧
    freshPool.findBlockSizeIndex 32 = some 1 ∧
    (freshPool.allocate 15).1 = some (4096 + FREE_BLOCK_HEADER_SIZE) ∧
    ((freshPool.allocate 15).2.deallocate (some ⟨32, 4096⟩)).2.block_sizes_ =
      freshPool.block_sizes_ ∧
    ((((freshPool.allocate 15).2.deallocate (some ⟨32, 4096⟩)).2.classAt 1).free_list.length = 128 ∧
      ¬ (((freshPool.allocate 15).2.deallocate (some ⟨32, 4096⟩)).2.classAt 1).free_list.length = 1) := by
  rw [freshPool_eq_seeded]
  decide

set_option maxRecDepth 8192 in
/-- C8 (amended): on a fresh pool, allocate(15) computes the aligned total
align_up(15 + header_size, 8) = 32; that total is already a seeded class
(index 1), so no class is inserted; after deallocate of the returned
pointer the pool has exactly one non-empty freelist, the one of class 32,
containing 128 blocks (PAGE_SIZE / 32 blocks manufactured by the batch,
one popped and then returned). -/
theorem C8_amended_dynamic_insertion :
    calcAlignedTotalSize 15 =
      alignUp (15 + FREE_BLOCK_HEADER_SIZE) BLOCK_ALIGNMENT ∧
    calcAlignedTotalSize 15 = 32 ∧
    (freshPool.allocate 15).1 = some (4096 + FREE_BLOCK_HEADER_SIZE) ∧
    ((freshPool.allocate 15).2.deallocate (some ⟨32, 4096⟩)).2.block_sizes_ =
      freshPool.block_sizes_ ∧
    ((freshPool.allocate 15).2.deallocate (some ⟨32, 4096⟩)).2.classes.map
      (fun c => c.free_list.length) = (List.replicate 256 0).set 1 128 := by
  rw [freshPool_eq_seeded]
  decide

set_option maxRecDepth 8192 in
/-- C9 counterexample: on a fresh thread-local pool, after
p = allocate(64); deallocate(p) the stats report total_used_memory = 16,
not 0: the batch pass charges the whole 4096-byte page to
total_allocated_memory_ but only 51 x 80 = 4080 bytes become blocks, so 16
bytes of page slack stay counted as used. -/
theorem C9_counterexample :
    ((ThreadLocalMemoryPool.mk freshPool).allocate 64).2.deallocate
        (some ⟨80, 4096⟩) |>.2.getLocalStats.total_used_memory = 16 ∧
    ¬ (((ThreadLocalMemoryPool.mk freshPool).allocate 64).2.deallocate
        (some ⟨80, 4096⟩) |>.2.getLocalStats.total_used_memory = 0) := by
  rw [freshPool_eq_seeded]
  decide

set_option maxRecDepth 8192 in
/-- C9 (amended): on a fresh thread-local pool, p = allocate(64) is
non-null and 8-aligned, and after deallocate(p) the local stats show
allocate_count = 1, deallocate_count = 1 and total_used_memory = 16 (the
slack of the 4096-byte page sliced into 51 blocks of 80 bytes), while
total_free_memory equals the 4080 manufactured bytes. -/
theorem C9_amended_single_thread_path :
    ((ThreadLocalMemoryPool.mk freshPool).allocate 64).1 = some 4112 ∧
    4112 % BLOCK_ALIGNMENT = 0 ∧
    ¬ (4112 = 0) ∧
    (((ThreadLocalMemoryPool.mk freshPool).allocate 64).2.deallocate
      (some ⟨80, 4096⟩)).2.getLocalStats.allocate_count = 1 ∧
    (((ThreadLocalMemoryPool.mk freshPool).allocate 64).2.deallocate
      (some ⟨80, 4096⟩)).2.getLocalStats.deallocate_count = 1 ∧
    (((ThreadLocalMemoryPool.mk freshPool).allocate 64).2.deallocate
      (some ⟨80, 4096⟩)).2.getLocalStats.total_used_memory = 16 ∧
    (((ThreadLocalMemoryPool.mk freshPool).allocate 64).2.deallocate
      (some ⟨80, 4096⟩)).2.getLocalStats.total_free_memory = 4080 := by
  rw [freshPool_eq_seeded]
  decide
